import Mathlib

/-!
# js/ui/tweener.js

A shallow embedding of gnome-shell's Tweener wrapper: the handler chain built by
`_addHandler`, the per-target tween state kept in `__ShellTweenerState`, the facade
functions in front of `imports.tweener.tweener`, and `ClutterFrameTicker`.

JavaScript values are embedded as the inductive `Val`; the heap is a family of maps
indexed by object identity; the tweening engine (`imports.tweener.tweener`) is an
external collaborator and enters as a parameter `Engine σ`.
-/

namespace Tweener

/-! ## Values -/

/-- Functions that can be referred to: functions handed in from outside this module
(only their identity is known) and the two callbacks this module defines. -/
inductive FnRef where
  | ext (id : Nat)
  | tweenCompleted
  | actorDestroyed
  deriving DecidableEq, Repr

/-- JavaScript values as far as tweener.js looks at them.  `chained` is the arrow
function built at lines 84-87 together with the five variables it closes over,
`direct` the arrow function of line 89. -/
inductive Val where
  | undefined
  | null
  | bool (b : Bool)
  | num (q : ℚ)
  | str (s : String)
  | obj (id : Nat)
  | fn (f : FnRef)
  | chained (oldHandler eventScope oldParams handler target : Val)
  | direct (handler target : Val)
  deriving DecidableEq

/-- JavaScript truthiness (`if (v)`, `!v`, `v ? a : b`). -/
def truthy : Val → Bool
  | .undefined => false
  | .null => false
  | .bool b => b
  | .num q => decide (q ≠ 0)
  | .str s => decide (s ≠ "")
  | _ => true

/-- A parameter bag (`tweeningParameters`): property name to value, `undefined` for a
property that is not there. -/
abbrev Params := String → Val

/-- How a function value gets invoked: `f.apply(thisArg, argArray)` or `f(arg)`. -/
inductive Invocation where
  | apply (thisArg argArray : Val)
  | call (arg : Val)
  deriving DecidableEq

/-- A call into a function from outside this module, through `apply` or plainly. -/
inductive Event where
  | applied (callee thisArg argArray : Val)
  | called (callee arg : Val)
  deriving DecidableEq

/-- What running a piece of code comes to: the calls into outside functions it made,
in order, and whether it ended with an exception. -/
structure Run where
  events : List Event
  threw : Bool
  deriving DecidableEq

/-- A `TypeError` raised before anything is called. -/
def Run.typeError : Run := ⟨[], true⟩

/-- Statement sequencing `a; b`: an exception in `a` skips `b`. -/
def Run.andThen (a b : Run) : Run :=
  if a.threw then a else ⟨a.events ++ b.events, b.threw⟩

/-- What `Function.prototype.apply` takes as its argument list: `undefined`, `null` or
an object; a primitive makes it raise `TypeError` before the function is entered. -/
def argArrayOk : Val → Bool
  | .bool _ => false
  | .num _ => false
  | .str _ => false
  | _ => true

/-- Whether an invocation gets as far as entering a function. -/
def Invocation.accepted : Invocation → Bool
  | .apply _ argArray => argArrayOk argArray
  | .call _ => true

/-- Invoking a value.  `throws` tells of each call into an outside function whether it
ends with an exception.  An arrow function ignores receiver and arguments and runs its
body; an outside function is recorded with the receiver and arguments it is given;
anything else is not callable (an object is taken to have no `apply` of its own), and
`apply` with a primitive argument list raises `TypeError` before the callee runs. -/
def invoke (throws : Event → Bool) : Val → Invocation → Run
  | .chained oldHandler eventScope oldParams handler target, how =>
      if how.accepted then
        (invoke throws oldHandler (.apply eventScope oldParams)).andThen
          (invoke throws handler (.call target))
      else .typeError
  | .direct handler target, how =>
      if how.accepted then invoke throws handler (.call target) else .typeError
  | .fn f, .apply thisArg argArray =>
      if argArrayOk argArray then
        ⟨[.applied (.fn f) thisArg argArray], throws (.applied (.fn f) thisArg argArray)⟩
      else .typeError
  | .fn f, .call arg => ⟨[.called (.fn f) arg], throws (.called (.fn f) arg)⟩
  | _, _ => .typeError

/-! ## HandlerChain: `_addHandler` (lines 77-91) -/

/-- Lines 77-91. -/
def _addHandler (target : Val) (params : Params) (name : String) (handler : Val) : Params :=
  if truthy (params name) then
    let oldHandler := params name
    let oldScope := params (name ++ "Scope")
    let oldParams := params (name ++ "Params")
    let eventScope := if truthy oldScope then oldScope else target
    Function.update params name (.chained oldHandler eventScope oldParams handler target)
  else
    Function.update params name (.direct handler target)

/-! ## The engine collaborator (`imports.tweener.tweener`) -/

/-- The argument list of a call into the engine: `f(...args)` hands the elements of
`args` over as the arguments, `f(args)` hands over one argument, the array `args`. -/
inductive EngineArgs where
  | spread (args : List Val)
  | packed (args : List Val)
  deriving DecidableEq

/-- The operations of `imports.tweener.tweener` that tweener.js calls, over an engine
state `σ` this module never looks into. -/
structure Engine (σ : Type) where
  addCaller : Val → Params → σ → σ
  addTween : Val → Params → σ → σ
  removeTweens : EngineArgs → σ → Bool × σ
  getTweenCount : Val → σ → Nat
  pauseTweens : EngineArgs → σ → Bool × σ
  resumeTweens : EngineArgs → σ → Bool × σ

/-- A call into the engine, as recorded in `World.engineLog`. -/
inductive EngineCall where
  | addCaller (target : Val) (params : Params)
  | addTween (target : Val) (params : Params)
  | removeTweens (args : EngineArgs)
  | pauseTweens (args : EngineArgs)
  | resumeTweens (args : EngineArgs)

/-! ## The heap and the 'destroy' signal -/

/-- The two fields lines 42-43 and 45-46 write into a state object, always together. -/
structure Subscription where
  actor : Nat
  destroyedId : Nat
  deriving DecidableEq, Repr

/-- A `__ShellTweenerState` object: `{}` (`sub = none`) or `{ actor, destroyedId }`. -/
structure TweenState where
  sub : Option Subscription
  deriving DecidableEq, Repr

/-- A `connect` or `disconnect` call on some object's 'destroy' signal. -/
inductive SigOp where
  | connect (actor handlerId target : Nat)
  | disconnect (actor handlerId : Nat)
  deriving DecidableEq, Repr

/-- Everything tweener.js reads and writes.  Objects are natural numbers.
* `isActor o`: `o instanceof Clutter.Actor`;
* `actorProp o`: the object `o.actor` refers to, if it refers to one;
* `tweenerState o`: `o.__ShellTweenerState`, `none` for `undefined`;
* `destroyHandlers o`: the handlers this module has connected to the 'destroy' signal
  of `o`, each with its handler id and the target its callback hands to
  `_actorDestroyed`;
* `nextHandlerId`: the id the next `connect` returns;
* `signalLog`, `engineLog`: the signal and engine calls made so far, newest first;
* `enableAnimations`: `St.Settings.get().enable_animations`. -/
@[ext]
structure World (σ : Type) where
  isActor : Nat → Bool
  actorProp : Nat → Option Nat
  tweenerState : Nat → Option TweenState
  destroyHandlers : Nat → List (Nat × Nat)
  nextHandlerId : Nat
  signalLog : List SigOp
  enableAnimations : Bool
  engine : σ
  engineLog : List EngineCall

variable {σ : Type}

/-- `actor.connect('destroy', cb)` where `cb` ends up calling `_actorDestroyed(target)`;
returns the handler id. -/
def connect (actor target : Nat) (w : World σ) : Nat × World σ :=
  (w.nextHandlerId,
   { w with
     destroyHandlers := Function.update w.destroyHandlers actor
       ((w.nextHandlerId, target) :: w.destroyHandlers actor)
     nextHandlerId := w.nextHandlerId + 1
     signalLog := .connect actor w.nextHandlerId target :: w.signalLog })

/-- `actor.disconnect(id)`. -/
def disconnect (actor id : Nat) (w : World σ) : World σ :=
  { w with
    destroyHandlers := Function.update w.destroyHandlers actor
      ((w.destroyHandlers actor).filter (fun e => e.1 ≠ id))
    signalLog := .disconnect actor id :: w.signalLog }

/-- Truthiness of `state.destroyedId`: a number other than 0. -/
def TweenState.hasDestroyedId (state : TweenState) : Bool :=
  match state.sub with
  | some s => s.destroyedId != 0
  | none => false

/-! ## TweenStateManager (lines 37-75, 93-101) -/

/-- Lines 58-64. -/
def _getTweenState (target : Nat) (w : World σ) : TweenState × World σ :=
  match w.tweenerState target with
  | some state => (state, w)
  | none => (⟨none⟩, { w with tweenerState := Function.update w.tweenerState target (some ⟨none⟩) })

/-- Lines 40-48: the part of `_wrapTweening` that subscribes. -/
def subscribe (target : Nat) (w : World σ) : World σ :=
  let (state, w1) := _getTweenState target w
  if !state.hasDestroyedId then
    if w1.isActor target then
      let (id, w2) := connect target target w1
      { w2 with tweenerState := Function.update w2.tweenerState target (some ⟨some ⟨target, id⟩⟩) }
    else
      match w1.actorProp target with
      | some a =>
        if w1.isActor a then
          let (id, w2) := connect a target w1
          { w2 with tweenerState := Function.update w2.tweenerState target (some ⟨some ⟨a, id⟩⟩) }
        else w1
      | none => w1
  else w1

/-- Lines 50-55: the part of `_wrapTweening` that rewrites the parameter bag. -/
def wrapParams (enableAnimations : Bool) (target : Nat) (tweeningParameters : Params) : Params :=
  let p :=
    if !enableAnimations then
      Function.update (Function.update tweeningParameters "time" (.num (1 / 1000000)))
        "delay" (.num (1 / 1000000))
    else tweeningParameters
  _addHandler (.obj target) p "onComplete" (.fn .tweenCompleted)

/-- Lines 37-56.  The bag is mutated in place in the source; here the rewritten bag is
returned next to the new world. -/
def _wrapTweening (target : Nat) (tweeningParameters : Params) (w : World σ) :
    Params × World σ :=
  (wrapParams w.enableAnimations target tweeningParameters, subscribe target w)

/-- Lines 66-75. -/
def _resetTweenState (target : Nat) (w : World σ) : World σ :=
  let w1 :=
    match w.tweenerState target with
    | some state =>
      match state.sub with
      | some s => if s.destroyedId ≠ 0 then disconnect s.actor s.destroyedId w else w
      | none => w
    | none => w
  { w1 with tweenerState := Function.update w1.tweenerState target (some ⟨none⟩) }

/-- Lines 103-105. -/
def getTweenCount (E : Engine σ) (scope : Val) (w : World σ) : Nat :=
  E.getTweenCount scope w.engine

/-- Lines 109-111. -/
def isTweening (E : Engine σ) (scope : Val) (w : World σ) : Bool :=
  E.getTweenCount scope w.engine != 0

/-- Lines 93-96. -/
def _actorDestroyed (E : Engine σ) (target : Nat) (w : World σ) : World σ :=
  let w1 := _resetTweenState target w
  { w1 with
    engine := (E.removeTweens (.spread [.obj target]) w1.engine).2
    engineLog := .removeTweens (.spread [.obj target]) :: w1.engineLog }

/-- Lines 98-101. -/
def _tweenCompleted (E : Engine σ) (target : Nat) (w : World σ) : World σ :=
  if !isTweening E (.obj target) w then _resetTweenState target w else w

/-! ## Facade (lines 27-35, 113-131)

The first argument of every facade call is taken to be an object, `obj target`. -/

/-- Lines 27-30. -/
def addCaller (E : Engine σ) (target : Nat) (tweeningParameters : Params) (w : World σ) :
    World σ :=
  let (p, w1) := _wrapTweening target tweeningParameters w
  { w1 with
    engine := E.addCaller (.obj target) p w1.engine
    engineLog := .addCaller (.obj target) p :: w1.engineLog }

/-- Lines 32-35. -/
def addTween (E : Engine σ) (target : Nat) (tweeningParameters : Params) (w : World σ) :
    World σ :=
  let (p, w1) := _wrapTweening target tweeningParameters w
  { w1 with
    engine := E.addTween (.obj target) p w1.engine
    engineLog := .addTween (.obj target) p :: w1.engineLog }

/-- Lines 113-123, called as `removeTweens(target, ...properties)`, so `args` is
`[target, ...properties]` and `scope` is `target`. -/
def removeTweens (E : Engine σ) (target : Nat) (properties : List Val) (w : World σ) :
    Bool × World σ :=
  let args := Val.obj target :: properties
  let r := E.removeTweens (.packed args) w.engine
  let w1 := { w with engine := r.2, engineLog := .removeTweens (.packed args) :: w.engineLog }
  if r.1 then
    if E.getTweenCount (.obj target) w1.engine == 0 then
      (true, _tweenCompleted E target w1)
    else (true, w1)
  else (false, w1)

/-- Lines 125-127. -/
def pauseTweens (E : Engine σ) (args : List Val) (w : World σ) : Bool × World σ :=
  let r := E.pauseTweens (.spread args) w.engine
  (r.1, { w with engine := r.2, engineLog := .pauseTweens (.spread args) :: w.engineLog })

/-- Lines 129-131. -/
def resumeTweens (E : Engine σ) (args : List Val) (w : World σ) : Bool × World σ :=
  let r := E.resumeTweens (.spread args) w.engine
  (r.1, { w with engine := r.2, engineLog := .resumeTweens (.spread args) :: w.engineLog })

/-! ## Runs -/

/-- What can happen to a world: calls into this module, and changes made by its
surroundings (the engine advancing on its own, `target.actor` being reassigned, the
animations setting being switched). -/
inductive Op (σ : Type) where
  | wrap (target : Nat) (params : Params)
  | addCaller (target : Nat) (params : Params)
  | addTween (target : Nat) (params : Params)
  | actorDestroyed (target : Nat)
  | tweenCompleted (target : Nat)
  | removeTweens (target : Nat) (properties : List Val)
  | pauseTweens (args : List Val)
  | resumeTweens (args : List Val)
  | engineStep (engine : σ)
  | setActorProp (target : Nat) (actor : Option Nat)
  | setEnableAnimations (b : Bool)

/-- One step. -/
def step (E : Engine σ) (w : World σ) : Op σ → World σ
  | .wrap t p => (_wrapTweening t p w).2
  | .addCaller t p => addCaller E t p w
  | .addTween t p => addTween E t p w
  | .actorDestroyed t => _actorDestroyed E t w
  | .tweenCompleted t => _tweenCompleted E t w
  | .removeTweens t ps => (removeTweens E t ps w).2
  | .pauseTweens args => (pauseTweens E args w).2
  | .resumeTweens args => (resumeTweens E args w).2
  | .engineStep e => { w with engine := e }
  | .setActorProp t a => { w with actorProp := Function.update w.actorProp t a }
  | .setEnableAnimations b => { w with enableAnimations := b }

/-- A run: the steps of `ops`, first to last. -/
def exec (E : Engine σ) (w : World σ) (ops : List (Op σ)) : World σ :=
  ops.foldl (step E) w

/-- The initial world: no target wrapped, nothing connected, nothing logged. -/
def World.init (isActor : Nat → Bool) (actorProp : Nat → Option Nat) (enableAnimations : Bool)
    (firstHandlerId : Nat) (engine : σ) : World σ :=
  { isActor := isActor
    actorProp := actorProp
    tweenerState := fun _ => none
    destroyHandlers := fun _ => []
    nextHandlerId := firstHandlerId
    signalLog := []
    enableAnimations := enableAnimations
    engine := engine
    engineLog := [] }

/-- The worlds some run reaches from an initial world whose handler ids start at
`firstHandlerId`. -/
def Reachable (E : Engine σ) (firstHandlerId : Nat) (w : World σ) : Prop :=
  ∃ isActor actorProp enableAnimations engine ops,
    w = exec E (World.init isActor actorProp enableAnimations firstHandlerId engine) ops

/-- The Destroyable lines 41-47 pick for `target`: `target` itself when it is an actor,
else `target.actor` when that is one. -/
def destroyableOf (w : World σ) (target : Nat) : Option Nat :=
  if w.isActor target then some target
  else
    match w.actorProp target with
    | some a => if w.isActor a then some a else none
    | none => none

/-- Target `target` has a subscription on record: its state object holds `actor` and a
truthy `destroyedId`. -/
def Recorded (w : World σ) (target actor id : Nat) : Prop :=
  w.tweenerState target = some ⟨some ⟨actor, id⟩⟩ ∧ id ≠ 0

/-- Handler `id` is connected to the 'destroy' signal of `actor` on behalf of `target`. -/
def Connected (w : World σ) (target actor id : Nat) : Prop :=
  (id, target) ∈ w.destroyHandlers actor

/-- The handler ids that have been disconnected, newest first. -/
def disconnected : List SigOp → List Nat
  | [] => []
  | .disconnect _ id :: l => id :: disconnected l
  | .connect _ _ _ :: l => disconnected l

/-- What holds of the subscriptions in every world a run reaches when handler ids are
not 0: a handler is connected exactly when the state object of its target records it,
ids are fresh, and the signal log is consistent with that. -/
structure Inv (w : World σ) : Prop where
  pos : 0 < w.nextHandlerId
  ids : ∀ a h T, (h, T) ∈ w.destroyHandlers a → 0 < h ∧ h < w.nextHandlerId
  recorded : ∀ a h T, (h, T) ∈ w.destroyHandlers a →
    w.tweenerState T = some ⟨some ⟨a, h⟩⟩
  connected : ∀ T a h, w.tweenerState T = some ⟨some ⟨a, h⟩⟩ →
    (h, T) ∈ w.destroyHandlers a
  nodup : ∀ a, (w.destroyHandlers a).Nodup
  unique : ∀ a a' h T T', (h, T) ∈ w.destroyHandlers a → (h, T') ∈ w.destroyHandlers a' →
    a = a' ∧ T = T'
  logged : ∀ a h T, (h, T) ∈ w.destroyHandlers a → SigOp.connect a h T ∈ w.signalLog
  connFresh : ∀ a h T, SigOp.connect a h T ∈ w.signalLog → h < w.nextHandlerId
  connUnique : ∀ a a' h T T', SigOp.connect a h T ∈ w.signalLog →
    SigOp.connect a' h T' ∈ w.signalLog → a = a' ∧ T = T'
  discOnce : (disconnected w.signalLog).Nodup
  discGone : ∀ a h, SigOp.disconnect a h ∈ w.signalLog →
    ∀ a' T, (h, T) ∉ w.destroyHandlers a'
  discNamed : ∀ pre post a h, w.signalLog = pre ++ SigOp.disconnect a h :: post →
    ∃ T, SigOp.connect a h T ∈ post

/-! ## A tween registry

Used to run the facade on concrete inputs. -/

/-- The property names among the arguments after the first. -/
def propertyNames : List Val → List String
  | [] => []
  | .str s :: l => s :: propertyNames l
  | _ :: l => propertyNames l

/-- The objects among the elements of an array. -/
def objectsOf : List Val → List Nat
  | [] => []
  | .obj o :: l => o :: objectsOf l
  | _ :: l => objectsOf l

/-- Which registry entries a selector names.  `f(target, ...names)`: the tweens of
`target`, all of them when no name is given, else those of the named properties.
`f(array)`: the array is a list of targets and no name is given, so all tweens of every
object in it. -/
def selects : EngineArgs → Nat × String → Bool
  | .spread (.obj t :: rest), e =>
      e.1 == t && ((propertyNames rest).isEmpty || (propertyNames rest).contains e.2)
  | .spread _, _ => false
  | .packed xs, e => (objectsOf xs).contains e.1

/-- The properties a bag asks to animate, out of a fixed few. -/
def animated (p : Params) : List String :=
  ["x", "y", "opacity"].filter (fun n => match p n with | .num _ => true | _ => false)

/-- Modelled from the spec: the engine collaborator `imports.tweener.tweener`, which is
not part of this repository.  Its state is the registry of active tweens, one entry
per target and animated property.  `getTweenCount` counts the entries of a target;
`removeTweens` drops the entries the selector names (target only: all properties of
the target; target and property names: those properties) and reports whether there
were any; an array in first position is the multi-target form; `pauseTweens` and
`resumeTweens` report whether the selector names anything. -/
def registry : Engine (List (Nat × String)) where
  addCaller := fun target _ e =>
    match target with
    | .obj t => e ++ [(t, "")]
    | _ => e
  addTween := fun target p e =>
    match target with
    | .obj t => e ++ (animated p).map (fun n => (t, n))
    | _ => e
  removeTweens := fun args e => (e.any (selects args), e.filter (fun x => !selects args x))
  getTweenCount := fun scope e =>
    match scope with
    | .obj t => (e.filter (fun x => x.1 == t)).length
    | _ => 0
  pauseTweens := fun args e => (e.any (selects args), e)
  resumeTweens := fun args e => (e.any (selects args), e)

/-! ## Concrete inputs -/

/-- The bag `{ onComplete: fn 7, onCompleteScope: obj 3, onCompleteParams: obj 9 }`. -/
def bagWithHook : Params := fun k =>
  if k = "onComplete" then .fn (.ext 7)
  else if k = "onCompleteScope" then .obj 3
  else if k = "onCompleteParams" then .obj 9
  else .undefined

/-- The bag `{ opacity: 255, x: 10, time: 1, delay: 0 }`. -/
def bagOpacityX : Params := fun k =>
  if k = "opacity" then .num 255
  else if k = "x" then .num 10
  else if k = "time" then .num 1
  else if k = "delay" then .num 0
  else .undefined

/-- A heap where object 1 is an actor, object 2 is a plain object whose `actor` is
object 1, and every other object is plain and has no `actor`; animations enabled,
handler ids from 1, no tweens. -/
def heap0 : World (List (Nat × String)) :=
  World.init (fun o => o == 1) (fun o => if o = 2 then some 1 else none) true 1 []

/-- After `addTween(obj 2, { opacity: 255, x: 10, time: 1, delay: 0 })` on `heap0`. -/
def heap1 : World (List (Nat × String)) :=
  exec registry heap0 [.addTween 2 bagOpacityX]

end Tweener

/-! ## Doubles

JavaScript numbers are IEEE 754 doubles.  A double is represented by the rational
number it denotes, and an arithmetic operation by the exact operation followed by
rounding to the nearest double, ties to even.  The exponent range is not bounded:
the clock readings of the ticker, their quotients by 1000 and the differences of
those neither overflow nor reach the subnormal range. -/

namespace Double

/-- Rounding to the nearest integer, ties to even. -/
def roundHalfEven (x : ℚ) : ℤ :=
  if x - ⌊x⌋ < 1 / 2 then ⌊x⌋
  else if 1 / 2 < x - ⌊x⌋ then ⌊x⌋ + 1
  else if ⌊x⌋ % 2 = 0 then ⌊x⌋ else ⌊x⌋ + 1

/-- The spacing of the doubles in the binade of a positive `x`: 53 significant bits. -/
def ulp (x : ℚ) : ℚ := (2 : ℚ) ^ (Int.log 2 x - 52)

/-- The double nearest to a positive `x`. -/
def roundPos (x : ℚ) : ℚ := roundHalfEven (x / ulp x) * ulp x

/-- The double nearest to `x`. -/
def nearest (x : ℚ) : ℚ :=
  if 0 < x then roundPos x else if x < 0 then -roundPos (-x) else 0

/-- The number a 64-bit integer value becomes when handed to JavaScript. -/
def ofInt (n : Nat) : ℚ := nearest n

/-- The operator `/` on doubles. -/
def div (a b : ℚ) : ℚ := nearest (a / b)

/-- The operator `-` on doubles. -/
def sub (a b : ℚ) : ℚ := nearest (a - b)

end Double

/-! ## ClutterFrameTicker (lines 160-223) -/

/-- The fields of a `ClutterFrameTicker`; `timelineRunning` stands for `this._timeline`
having been started and not stopped.  Times are doubles, in milliseconds. -/
structure ClutterFrameTicker where
  _startTime : ℚ
  _currentTime : ℚ
  timelineRunning : Bool
  deriving DecidableEq

namespace ClutterFrameTicker

/-- Lines 161-183. -/
def new : ClutterFrameTicker := ⟨-1, -1, false⟩

/-- Lines 185-187. -/
def FRAME_RATE (_ : ClutterFrameTicker) : Nat := 60

/-- The expression `GLib.get_monotonic_time() / 1000.0` when the clock reads `now`
microseconds. -/
def monotonicMs (now : Nat) : ℚ := Double.div (Double.ofInt now) 1000

/-- Lines 189-204.  `now₁` is what `GLib.get_monotonic_time()` returns at line 196 (read
only while the start time is unset) and `now₂` what it returns at line 200, both in
microseconds. -/
def _onNewFrame (t : ClutterFrameTicker) (_frame : Int) (now₁ now₂ : Nat) : ClutterFrameTicker :=
  let startTime := if t._startTime < 0 then monotonicMs now₁ else t._startTime
  { t with _startTime := startTime, _currentTime := Double.sub (monotonicMs now₂) startTime }

/-- Lines 206-208. -/
def getTime (t : ClutterFrameTicker) : ℚ := t._currentTime

/-- Lines 210-215; the time scale and `global.begin_work()` live outside the ticker. -/
def start (t : ClutterFrameTicker) : ClutterFrameTicker := { t with timelineRunning := true }

/-- Lines 217-222. -/
def stop (_ : ClutterFrameTicker) : ClutterFrameTicker := ⟨-1, -1, false⟩

/-- A pulse of the timeline: the frame value it carries, what the clock reads at line
196 should that line run (`startRead`), and what it reads at line 200 (`clock`), in
microseconds. -/
structure Pulse where
  frame : Int
  startRead : Nat
  clock : Nat
  deriving DecidableEq

/-- The 'new-frame' handler of lines 172-174. -/
def deliver (t : ClutterFrameTicker) (p : Pulse) : ClutterFrameTicker :=
  t._onNewFrame p.frame p.startRead p.clock

/-- What `getTime()` returns after each pulse of a run, in order. -/
def elapsed (t : ClutterFrameTicker) : List Pulse → List ℚ
  | [] => []
  | p :: ps => (t.deliver p).getTime :: elapsed (t.deliver p) ps

end ClutterFrameTicker

namespace Tweener

variable {σ : Type}

/-! ## Effects of `subscribe` and `_resetTweenState` -/

theorem mem_disconnected {l : List SigOp} {h : Nat} :
    h ∈ disconnected l ↔ ∃ a, SigOp.disconnect a h ∈ l := by
  induction l with
  | nil => simp [disconnected]
  | cons x l ih =>
    cases x with
    | connect a i t => simp [disconnected, ih]
    | disconnect a i =>
      simp only [disconnected, List.mem_cons, ih, SigOp.disconnect.injEq]
      constructor
      · rintro (rfl | ⟨b, hb⟩)
        · exact ⟨a, Or.inl ⟨rfl, rfl⟩⟩
        · exact ⟨b, Or.inr hb⟩
      · rintro ⟨b, ⟨-, rfl⟩ | hb⟩
        · exact Or.inl rfl
        · exact Or.inr ⟨b, hb⟩

theorem subscribe_of_subscribed (T : Nat) (w : World σ) (st : TweenState)
    (h1 : w.tweenerState T = some st) (h2 : st.hasDestroyedId = true) : subscribe T w = w := by
  simp [subscribe, _getTweenState, h1, h2]

theorem subscribe_of_resolved (T a : Nat) (w : World σ)
    (hns : ∀ st, w.tweenerState T = some st → st.hasDestroyedId = false)
    (hr : destroyableOf w T = some a) :
    subscribe T w =
      { w with
        destroyHandlers := Function.update w.destroyHandlers a
          ((w.nextHandlerId, T) :: w.destroyHandlers a)
        nextHandlerId := w.nextHandlerId + 1
        signalLog := .connect a w.nextHandlerId T :: w.signalLog
        tweenerState := Function.update w.tweenerState T (some ⟨some ⟨a, w.nextHandlerId⟩⟩) } := by
  unfold destroyableOf at hr
  cases hst : w.tweenerState T with
  | none =>
    by_cases hA : w.isActor T
    · simp [hA] at hr; subst hr
      simp [subscribe, _getTweenState, hst, TweenState.hasDestroyedId, hA, connect]
    · cases hp : w.actorProp T with
      | none => simp [hA, hp] at hr
      | some b =>
        by_cases hB : w.isActor b
        · simp [hA, hp, hB] at hr; subst hr
          simp [subscribe, _getTweenState, hst, TweenState.hasDestroyedId, hA, hp, hB, connect]
        · simp [hA, hp, hB] at hr
  | some st =>
    have h2 := hns st hst
    by_cases hA : w.isActor T
    · simp [hA] at hr; subst hr
      simp [subscribe, _getTweenState, hst, h2, hA, connect]
    · cases hp : w.actorProp T with
      | none => simp [hA, hp] at hr
      | some b =>
        by_cases hB : w.isActor b
        · simp [hA, hp, hB] at hr; subst hr
          simp [subscribe, _getTweenState, hst, h2, hA, hp, hB, connect]
        · simp [hA, hp, hB] at hr

theorem subscribe_of_unresolved (T : Nat) (w : World σ)
    (hns : ∀ st, w.tweenerState T = some st → st.hasDestroyedId = false)
    (hr : destroyableOf w T = none) :
    subscribe T w =
      { w with
        tweenerState :=
          Function.update w.tweenerState T (some ((w.tweenerState T).getD ⟨none⟩)) } := by
  unfold destroyableOf at hr
  have hA : w.isActor T = false := by
    by_contra hA; simp at hA; simp [hA] at hr
  simp only [hA] at hr
  cases hst : w.tweenerState T with
  | none =>
    cases hp : w.actorProp T with
    | none => simp [subscribe, _getTweenState, hst, TweenState.hasDestroyedId, hA, hp]
    | some b =>
      have hB : w.isActor b = false := by
        by_contra hB; simp at hB; simp [hp, hB] at hr
      simp [subscribe, _getTweenState, hst, TweenState.hasDestroyedId, hA, hp, hB]
  | some st =>
    have h2 := hns st hst
    have hu : Function.update w.tweenerState T (some st) = w.tweenerState := by
      rw [← hst]; exact Function.update_eq_self _ _
    cases hp : w.actorProp T with
    | none => simp [subscribe, _getTweenState, hst, h2, hA, hp, hu]
    | some b =>
      have hB : w.isActor b = false := by
        by_contra hB; simp at hB; simp [hp, hB] at hr
      simp [subscribe, _getTweenState, hst, h2, hA, hp, hB, hu]

theorem reset_of_recorded (T a h : Nat) (w : World σ) (hrec : Recorded w T a h) :
    _resetTweenState T w =
      { w with
        destroyHandlers := Function.update w.destroyHandlers a
          ((w.destroyHandlers a).filter (fun e => e.1 ≠ h))
        signalLog := .disconnect a h :: w.signalLog
        tweenerState := Function.update w.tweenerState T (some ⟨none⟩) } := by
  obtain ⟨h1, h2⟩ := hrec
  simp [_resetTweenState, h1, h2, disconnect]

theorem reset_of_not_recorded (T : Nat) (w : World σ) (hn : ∀ a h, ¬ Recorded w T a h) :
    _resetTweenState T w =
      { w with tweenerState := Function.update w.tweenerState T (some ⟨none⟩) } := by
  cases hst : w.tweenerState T with
  | none => simp [_resetTweenState, hst]
  | some st =>
    obtain ⟨sub⟩ := st
    cases sub with
    | none => simp [_resetTweenState, hst]
    | some s =>
      obtain ⟨a, h⟩ := s
      by_cases h0 : h = 0
      · simp [_resetTweenState, hst, h0]
      · exact absurd ⟨hst, h0⟩ (hn a h)

/-! ## The invariant -/

theorem mem_update_cons {f : Nat → List (Nat × Nat)} {a a' : Nat} {x y : Nat × Nat} :
    x ∈ Function.update f a (y :: f a) a' ↔ (a' = a ∧ x = y) ∨ x ∈ f a' := by
  by_cases h : a' = a
  · subst h; simp
  · simp [Function.update_noteq h, h]

theorem mem_update_filter {f : Nat → List (Nat × Nat)} {a a' h : Nat} {x : Nat × Nat} :
    x ∈ Function.update f a ((f a).filter (fun e => e.1 ≠ h)) a' ↔
      x ∈ f a' ∧ (a' = a → x.1 ≠ h) := by
  by_cases ha : a' = a
  · subst ha; simp
  · simp [Function.update_noteq ha, ha]

theorem inv_connect {w w' : World σ} (hI : Inv w) (T a : Nat)
    (hno : ∀ b h, w.tweenerState T ≠ some ⟨some ⟨b, h⟩⟩)
    (hH : w'.destroyHandlers = Function.update w.destroyHandlers a
      ((w.nextHandlerId, T) :: w.destroyHandlers a))
    (hn : w'.nextHandlerId = w.nextHandlerId + 1)
    (hl : w'.signalLog = .connect a w.nextHandlerId T :: w.signalLog)
    (hs : w'.tweenerState =
      Function.update w.tweenerState T (some ⟨some ⟨a, w.nextHandlerId⟩⟩)) : Inv w' := by
  have hfresh : ∀ b t, (w.nextHandlerId, t) ∉ w.destroyHandlers b := fun b t hm =>
    absurd (hI.ids b _ t hm).2 (lt_irrefl _)
  constructor
  · rw [hn]; exact Nat.succ_pos _
  · intro b h t hm
    rw [hH, mem_update_cons] at hm
    rw [hn]
    rcases hm with ⟨-, he⟩ | hm
    · cases he; exact ⟨hI.pos, Nat.lt_succ_self _⟩
    · exact ⟨(hI.ids b h t hm).1, Nat.lt_succ_of_lt (hI.ids b h t hm).2⟩
  · intro b h t hm
    rw [hH, mem_update_cons] at hm
    rw [hs]
    rcases hm with ⟨rfl, he⟩ | hm
    · cases he; simp
    · have ht : t ≠ T := by
        rintro rfl
        exact hno b h (hI.recorded b h t hm)
      rw [Function.update_noteq ht]
      exact hI.recorded b h t hm
  · intro t b h ht
    rw [hs] at ht
    rw [hH, mem_update_cons]
    by_cases htT : t = T
    · subst htT
      simp only [Function.update_same, Option.some.injEq, TweenState.mk.injEq,
        Subscription.mk.injEq] at ht
      obtain ⟨rfl, rfl⟩ := ht
      exact Or.inl ⟨rfl, rfl⟩
    · rw [Function.update_noteq htT] at ht
      exact Or.inr (hI.connected t b h ht)
  · intro b
    rw [hH]
    by_cases hb : b = a
    · subst hb
      rw [Function.update_same]
      exact List.nodup_cons.mpr ⟨hfresh _ _, hI.nodup b⟩
    · rw [Function.update_noteq hb]
      exact hI.nodup b
  · intro b b' h t t' hm hm'
    rw [hH, mem_update_cons] at hm hm'
    rcases hm with ⟨rfl, he⟩ | hm <;> rcases hm' with ⟨rfl, he'⟩ | hm'
    · cases he; cases he'; exact ⟨rfl, rfl⟩
    · cases he; exact absurd hm' (hfresh _ _)
    · cases he'; exact absurd hm (hfresh _ _)
    · exact hI.unique b b' h t t' hm hm'
  · intro b h t hm
    rw [hH, mem_update_cons] at hm
    rw [hl]
    rcases hm with ⟨rfl, he⟩ | hm
    · cases he; exact List.mem_cons_self _ _
    · exact List.mem_cons_of_mem _ (hI.logged b h t hm)
  · intro b h t hm
    rw [hl, List.mem_cons] at hm
    rw [hn]
    rcases hm with he | hm
    · cases he; exact Nat.lt_succ_self _
    · exact Nat.lt_succ_of_lt (hI.connFresh b h t hm)
  · intro b b' h t t' hm hm'
    rw [hl, List.mem_cons] at hm hm'
    rcases hm with he | hm <;> rcases hm' with he' | hm'
    · cases he; cases he'; exact ⟨rfl, rfl⟩
    · cases he; exact absurd (hI.connFresh _ _ _ hm') (lt_irrefl _)
    · cases he'; exact absurd (hI.connFresh _ _ _ hm) (lt_irrefl _)
    · exact hI.connUnique b b' h t t' hm hm'
  · rw [hl]; exact hI.discOnce
  · intro b h hm b' t hm'
    rw [hl, List.mem_cons] at hm
    rcases hm with he | hm
    · cases he
    · rw [hH, mem_update_cons] at hm'
      rcases hm' with ⟨-, he⟩ | hm'
      · cases he
        obtain ⟨pre, post, hsplit⟩ := List.append_of_mem hm
        obtain ⟨t0, ht0⟩ := hI.discNamed pre post b _ hsplit
        have hin : SigOp.connect b w.nextHandlerId t0 ∈ w.signalLog := by
          rw [hsplit]; simp [ht0]
        exact absurd (hI.connFresh _ _ _ hin) (lt_irrefl _)
      · exact hI.discGone b h hm b' t hm'
  · intro pre post b h hsplit
    rw [hl] at hsplit
    cases pre with
    | nil => simp at hsplit
    | cons x pre =>
      simp only [List.cons_append, List.cons.injEq] at hsplit
      exact hI.discNamed pre post b h hsplit.2

theorem inv_disconnect {w w' : World σ} (hI : Inv w) (T a h : Nat)
    (hst : w.tweenerState T = some ⟨some ⟨a, h⟩⟩)
    (hH : w'.destroyHandlers = Function.update w.destroyHandlers a
      ((w.destroyHandlers a).filter (fun e => e.1 ≠ h)))
    (hn : w'.nextHandlerId = w.nextHandlerId)
    (hl : w'.signalLog = .disconnect a h :: w.signalLog)
    (hs : w'.tweenerState = Function.update w.tweenerState T (some ⟨none⟩)) : Inv w' := by
  have hin : (h, T) ∈ w.destroyHandlers a := hI.connected T a h hst
  have hsub : ∀ b x, x ∈ w'.destroyHandlers b → x ∈ w.destroyHandlers b ∧ x.1 ≠ h := by
    intro b x hx
    rw [hH, mem_update_filter] at hx
    refine ⟨hx.1, fun he => ?_⟩
    have hx1 : (h, x.2) ∈ w.destroyHandlers b := by rw [← he]; exact hx.1
    exact hx.2 (hI.unique b a h x.2 T hx1 hin).1 he
  constructor
  · rw [hn]; exact hI.pos
  · intro b i t hm
    rw [hn]; exact hI.ids b i t (hsub b _ hm).1
  · intro b i t hm
    obtain ⟨hm1, hne⟩ := hsub b _ hm
    have hrec := hI.recorded b i t hm1
    have ht : t ≠ T := by
      rintro rfl
      rw [hst] at hrec
      simp only [Option.some.injEq, TweenState.mk.injEq, Subscription.mk.injEq] at hrec
      exact hne hrec.2.symm
    rw [hs, Function.update_noteq ht]
    exact hrec
  · intro t b i ht
    rw [hs] at ht
    by_cases htT : t = T
    · subst htT
      simp at ht
    · rw [Function.update_noteq htT] at ht
      have hm := hI.connected t b i ht
      rw [hH, mem_update_filter]
      refine ⟨hm, fun _ he => ?_⟩
      have he' : i = h := he
      subst he'
      exact htT (hI.unique b a i t T hm hin).2
  · intro b
    rw [hH]
    by_cases hb : b = a
    · subst hb
      rw [Function.update_same]
      exact (hI.nodup b).filter _
    · rw [Function.update_noteq hb]
      exact hI.nodup b
  · intro b b' i t t' hm hm'
    exact hI.unique b b' i t t' (hsub b _ hm).1 (hsub b' _ hm').1
  · intro b i t hm
    rw [hl]
    exact List.mem_cons_of_mem _ (hI.logged b i t (hsub b _ hm).1)
  · intro b i t hm
    rw [hl, List.mem_cons] at hm
    rw [hn]
    rcases hm with he | hm
    · cases he
    · exact hI.connFresh b i t hm
  · intro b b' i t t' hm hm'
    rw [hl, List.mem_cons] at hm hm'
    rcases hm with he | hm
    · cases he
    rcases hm' with he' | hm'
    · cases he'
    exact hI.connUnique b b' i t t' hm hm'
  · rw [hl]
    simp only [disconnected]
    refine List.nodup_cons.mpr ⟨fun hmem => ?_, hI.discOnce⟩
    obtain ⟨b, hb⟩ := mem_disconnected.mp hmem
    exact hI.discGone b h hb a T hin
  · intro b i hm b' t hm'
    obtain ⟨hm1, hne⟩ := hsub b' _ hm'
    rw [hl, List.mem_cons] at hm
    rcases hm with he | hm
    · cases he; exact hne rfl
    · exact hI.discGone b i hm b' t hm1
  · intro pre post b i hsplit
    rw [hl] at hsplit
    cases pre with
    | nil =>
      simp only [List.nil_append, List.cons.injEq, SigOp.disconnect.injEq] at hsplit
      obtain ⟨⟨rfl, rfl⟩, rfl⟩ := hsplit
      exact ⟨T, hI.logged _ _ _ hin⟩
    | cons x pre =>
      simp only [List.cons_append, List.cons.injEq] at hsplit
      exact hI.discNamed pre post b i hsplit.2

theorem inv_clear {w w' : World σ} (hI : Inv w) (T : Nat) (st0 : TweenState)
    (hno : ∀ b h, w.tweenerState T ≠ some ⟨some ⟨b, h⟩⟩) (h0 : st0.sub = none)
    (hH : w'.destroyHandlers = w.destroyHandlers)
    (hn : w'.nextHandlerId = w.nextHandlerId)
    (hl : w'.signalLog = w.signalLog)
    (hs : w'.tweenerState = Function.update w.tweenerState T (some st0)) : Inv w' := by
  constructor
  · rw [hn]; exact hI.pos
  · rw [hH, hn]; exact hI.ids
  · intro b i t hm
    rw [hH] at hm
    have ht : t ≠ T := by
      rintro rfl
      exact hno b i (hI.recorded b i t hm)
    rw [hs, Function.update_noteq ht]
    exact hI.recorded b i t hm
  · intro t b i ht
    rw [hs] at ht
    rw [hH]
    by_cases htT : t = T
    · subst htT
      simp only [Function.update_same, Option.some.injEq] at ht
      rw [ht] at h0
      simp at h0
    · rw [Function.update_noteq htT] at ht
      exact hI.connected t b i ht
  · rw [hH]; exact hI.nodup
  · rw [hH]; exact hI.unique
  · rw [hH, hl]; exact hI.logged
  · rw [hl, hn]; exact hI.connFresh
  · rw [hl]; exact hI.connUnique
  · rw [hl]; exact hI.discOnce
  · rw [hl, hH]; exact hI.discGone
  · rw [hl]; exact hI.discNamed

theorem inv_frame {w w' : World σ} (hI : Inv w)
    (hH : w'.destroyHandlers = w.destroyHandlers)
    (hn : w'.nextHandlerId = w.nextHandlerId)
    (hl : w'.signalLog = w.signalLog)
    (hs : w'.tweenerState = w.tweenerState) : Inv w' := by
  constructor
  · rw [hn]; exact hI.pos
  · rw [hH, hn]; exact hI.ids
  · rw [hH, hs]; exact hI.recorded
  · rw [hH, hs]; exact hI.connected
  · rw [hH]; exact hI.nodup
  · rw [hH]; exact hI.unique
  · rw [hH, hl]; exact hI.logged
  · rw [hl, hn]; exact hI.connFresh
  · rw [hl]; exact hI.connUnique
  · rw [hl]; exact hI.discOnce
  · rw [hl, hH]; exact hI.discGone
  · rw [hl]; exact hI.discNamed

/-- Under the invariant a state object holds a subscription exactly when its
`destroyedId` is truthy. -/
theorem Inv.recorded_of_state {w : World σ} (hI : Inv w) {T a h : Nat}
    (hst : w.tweenerState T = some ⟨some ⟨a, h⟩⟩) : Recorded w T a h :=
  ⟨hst, Nat.pos_iff_ne_zero.mp (hI.ids a h T (hI.connected T a h hst)).1⟩

theorem inv_subscribe {w : World σ} (hI : Inv w) (T : Nat) : Inv (subscribe T w) := by
  by_cases hsub : ∃ st, w.tweenerState T = some st ∧ st.hasDestroyedId = true
  · obtain ⟨st, h1, h2⟩ := hsub
    rw [subscribe_of_subscribed T w st h1 h2]; exact hI
  · have hns : ∀ st, w.tweenerState T = some st → st.hasDestroyedId = false := by
      intro st hst
      by_contra hc
      exact hsub ⟨st, hst, by simpa using hc⟩
    have hno : ∀ b h, w.tweenerState T ≠ some ⟨some ⟨b, h⟩⟩ := by
      intro b h hst
      have := hns _ hst
      have h0 := (hI.recorded_of_state hst).2
      simp [TweenState.hasDestroyedId, h0] at this
    cases hr : destroyableOf w T with
    | some a =>
      rw [subscribe_of_resolved T a w hns hr]
      exact inv_connect hI T a hno rfl rfl rfl rfl
    | none =>
      rw [subscribe_of_unresolved T w hns hr]
      refine inv_clear hI T _ hno ?_ rfl rfl rfl rfl
      cases hst : w.tweenerState T with
      | none => rfl
      | some st =>
        obtain ⟨sub⟩ := st
        cases sub with
        | none => rfl
        | some s => exact absurd hst (hno s.actor s.destroyedId)

theorem inv_reset {w : World σ} (hI : Inv w) (T : Nat) : Inv (_resetTweenState T w) := by
  by_cases hrec : ∃ a h, Recorded w T a h
  · obtain ⟨a, h, hrec⟩ := hrec
    rw [reset_of_recorded T a h w hrec]
    exact inv_disconnect hI T a h hrec.1 rfl rfl rfl rfl
  · have hn : ∀ a h, ¬ Recorded w T a h := fun a h hr => hrec ⟨a, h, hr⟩
    rw [reset_of_not_recorded T w hn]
    exact inv_clear hI T ⟨none⟩ (fun b h hst => hn b h (hI.recorded_of_state hst)) rfl
      rfl rfl rfl rfl

theorem inv_tweenCompleted {w : World σ} (E : Engine σ) (hI : Inv w) (T : Nat) :
    Inv (_tweenCompleted E T w) := by
  unfold _tweenCompleted
  split
  · exact inv_reset hI T
  · exact hI

theorem inv_step {w : World σ} (E : Engine σ) (hI : Inv w) (op : Op σ) : Inv (step E w op) := by
  cases op with
  | wrap t p => exact inv_subscribe hI t
  | addCaller t p => exact inv_frame (inv_subscribe hI t) rfl rfl rfl rfl
  | addTween t p => exact inv_frame (inv_subscribe hI t) rfl rfl rfl rfl
  | actorDestroyed t => exact inv_frame (inv_reset hI t) rfl rfl rfl rfl
  | tweenCompleted t => exact inv_tweenCompleted E hI t
  | removeTweens t ps =>
    have hI1 : Inv ({ w with
        engine := (E.removeTweens (.packed (Val.obj t :: ps)) w.engine).2
        engineLog := .removeTweens (.packed (Val.obj t :: ps)) :: w.engineLog } : World σ) :=
      inv_frame hI rfl rfl rfl rfl
    simp only [step, removeTweens]
    split
    · split
      · exact inv_tweenCompleted E hI1 t
      · exact hI1
    · exact hI1
  | pauseTweens args => exact inv_frame hI rfl rfl rfl rfl
  | resumeTweens args => exact inv_frame hI rfl rfl rfl rfl
  | engineStep e => exact inv_frame hI rfl rfl rfl rfl
  | setActorProp t a => exact inv_frame hI rfl rfl rfl rfl
  | setEnableAnimations b => exact inv_frame hI rfl rfl rfl rfl

theorem inv_exec {w : World σ} (E : Engine σ) (hI : Inv w) (ops : List (Op σ)) :
    Inv (exec E w ops) := by
  induction ops generalizing w with
  | nil => exact hI
  | cons op ops ih => exact ih (inv_step E hI op)

theorem inv_init (isActor : Nat → Bool) (actorProp : Nat → Option Nat) (b : Bool) (n : Nat)
    (e : σ) (hn : 0 < n) : Inv (World.init isActor actorProp b n e) := by
  constructor <;> simp [World.init, disconnected, hn]

theorem inv_of_reachable {E : Engine σ} {n : Nat} {w : World σ} (hn : 0 < n)
    (hr : Reachable E n w) : Inv w := by
  obtain ⟨isActor, actorProp, b, e, ops, rfl⟩ := hr
  exact inv_exec E (inv_init isActor actorProp b n e hn) ops

/-! ## Destruction -/

theorem destroyableOf_congr {w w' : World σ} (h1 : w'.isActor = w.isActor)
    (h2 : w'.actorProp = w.actorProp) (T : Nat) : destroyableOf w' T = destroyableOf w T := by
  simp [destroyableOf, h1, h2]

theorem not_connected_after_reset (w : World σ) (T a h t : Nat) (hrec : Recorded w T a h) :
    ¬ Connected (_resetTweenState T w) t a h := by
  rw [reset_of_recorded T a h w hrec]
  simp [Connected]

theorem not_connected_target_after_reset {w : World σ} (hI : Inv w) (T : Nat) (b i : Nat) :
    ¬ Connected (_resetTweenState T w) T b i := by
  intro hc
  have hI' := inv_reset hI T
  have h1 := hI'.recorded b i T hc
  by_cases hrec : ∃ a h, Recorded w T a h
  · obtain ⟨a, h, hrec⟩ := hrec
    rw [reset_of_recorded T a h w hrec] at h1
    simp at h1
  · have hn : ∀ a h, ¬ Recorded w T a h := fun a h hr => hrec ⟨a, h, hr⟩
    rw [reset_of_not_recorded T w hn] at h1
    simp at h1

theorem reset_state (w : World σ) (T : Nat) :
    (_resetTweenState T w).tweenerState T = some ⟨none⟩ := by
  simp [_resetTweenState]

theorem reset_engine (w : World σ) (T : Nat) :
    (_resetTweenState T w).engine = w.engine ∧
    (_resetTweenState T w).engineLog = w.engineLog ∧
    (_resetTweenState T w).isActor = w.isActor ∧
    (_resetTweenState T w).actorProp = w.actorProp ∧
    (_resetTweenState T w).nextHandlerId = w.nextHandlerId ∧
    (_resetTweenState T w).enableAnimations = w.enableAnimations := by
  unfold _resetTweenState
  cases w.tweenerState T with
  | none => simp
  | some st =>
    obtain ⟨sub⟩ := st
    cases sub with
    | none => simp
    | some s =>
      by_cases h0 : s.destroyedId = 0 <;> simp [h0, disconnect]

/-- C1: for a target `T` of a reachable world (handler ids from a non-zero start)
that resolves to a Destroyable `a'`, has a subscription `(a, h)` on record, and on
which the engine's target-only removal leaves no tween: after `_actorDestroyed(T)` the
engine has been called with `removeTweens(T)`, `isTweening(T)` is false, the state
object of `T` is `{}`, `h` has been disconnected from `a` and nothing is connected for
`T`; a following `_wrapTweening(T, params)` connects a handler again and records its
id, which is not `h`. -/
theorem actorDestroyed_resets (E : Engine σ) (n0 : Nat) (w : World σ) (T a h a' : Nat)
    (params : Params) (hn0 : 0 < n0) (hreach : Reachable E n0 w)
    (hrec : Recorded w T a h) (hd : destroyableOf w T = some a')
    (hE : E.getTweenCount (.obj T) (E.removeTweens (.spread [.obj T]) w.engine).2 = 0) :
    (_actorDestroyed E T w).engineLog = .removeTweens (.spread [.obj T]) :: w.engineLog ∧
    (_actorDestroyed E T w).engine = (E.removeTweens (.spread [.obj T]) w.engine).2 ∧
    isTweening E (.obj T) (_actorDestroyed E T w) = false ∧
    (_actorDestroyed E T w).tweenerState T = some ⟨none⟩ ∧
    (_actorDestroyed E T w).signalLog = .disconnect a h :: w.signalLog ∧
    (∀ b i, ¬ Connected (_actorDestroyed E T w) T b i) ∧
    Recorded (_wrapTweening T params (_actorDestroyed E T w)).2 T a' w.nextHandlerId ∧
    Connected (_wrapTweening T params (_actorDestroyed E T w)).2 T a' w.nextHandlerId ∧
    (_wrapTweening T params (_actorDestroyed E T w)).2.signalLog =
      .connect a' w.nextHandlerId T :: (_actorDestroyed E T w).signalLog ∧
    w.nextHandlerId ≠ h := by
  have hI := inv_of_reachable hn0 hreach
  obtain ⟨he, hel, hia, hap, hnx, -⟩ := reset_engine w T
  have hst : (_actorDestroyed E T w).tweenerState T = some ⟨none⟩ := reset_state w T
  have hns : ∀ st, (_actorDestroyed E T w).tweenerState T = some st →
      st.hasDestroyedId = false := by
    intro st h1
    rw [hst] at h1
    cases h1
    rfl
  have hd' : destroyableOf (_actorDestroyed E T w) T = some a' := by
    rw [← hd]
    exact destroyableOf_congr hia hap T
  have hnx' : (_actorDestroyed E T w).nextHandlerId = w.nextHandlerId := hnx
  have hlt : h < w.nextHandlerId := (hI.ids a h T (hI.connected T a h hrec.1)).2
  refine ⟨?_, ?_, ?_, hst, ?_, ?_, ?_, ?_, ?_, fun hc => absurd hlt (by rw [hc]; exact lt_irrefl _)⟩
  · simp [_actorDestroyed, hel]
  · simp [_actorDestroyed, he]
  · simp [isTweening, _actorDestroyed, he, hE]
  · show (_resetTweenState T w).signalLog = _
    rw [reset_of_recorded T a h w hrec]
  · exact fun b i => not_connected_target_after_reset hI T b i
  · constructor
    · simp only [_wrapTweening]
      rw [subscribe_of_resolved T a' _ hns hd', hnx']
      simp
    · exact Nat.pos_iff_ne_zero.mp hI.pos
  · simp only [_wrapTweening, Connected]
    rw [subscribe_of_resolved T a' _ hns hd', hnx']
    simp
  · simp only [_wrapTweening]
    rw [subscribe_of_resolved T a' _ hns hd', hnx']

/-- C1 at object 2 of `heap1`, destroyed while two tweens run on it. -/
theorem actorDestroyed_resets_witness :
    Recorded heap1 2 1 1 ∧ isTweening registry (.obj 2) heap1 = true ∧
    isTweening registry (.obj 2) (_actorDestroyed registry 2 heap1) = false ∧
    Recorded (_wrapTweening 2 bagOpacityX (_actorDestroyed registry 2 heap1)).2 2 1 2 :=
  have h := actorDestroyed_resets registry 1 heap1 2 1 1 1 bagOpacityX (by decide)
    ⟨_, _, _, _, _, rfl⟩ ⟨by decide, by decide⟩ (by decide) (by decide)
  ⟨⟨by decide, by decide⟩, by decide, h.2.2.1, h.2.2.2.2.2.2.1⟩

/-! ## Completion -/

/-- C7: when the engine reports no tween for `T`, `_tweenCompleted(T)` leaves the state
object of `T` as `{}`, disconnects the handler on record from the Destroyable on
record, and `isTweening(T)` is false afterwards; when the engine reports a count other
than zero, `_tweenCompleted(T)` changes nothing. -/
theorem tweenCompleted_effect (E : Engine σ) (w : World σ) (T : Nat) :
    (E.getTweenCount (.obj T) w.engine = 0 →
      (_tweenCompleted E T w).tweenerState T = some ⟨none⟩ ∧
      (∀ a h, Recorded w T a h →
        (_tweenCompleted E T w).signalLog = .disconnect a h :: w.signalLog ∧
        ∀ t, ¬ Connected (_tweenCompleted E T w) t a h) ∧
      isTweening E (.obj T) (_tweenCompleted E T w) = false) ∧
    (E.getTweenCount (.obj T) w.engine ≠ 0 → _tweenCompleted E T w = w) := by
  constructor
  · intro h0
    have hr : _tweenCompleted E T w = _resetTweenState T w := by
      simp [_tweenCompleted, isTweening, h0]
    rw [hr]
    refine ⟨reset_state w T, fun a h hrec => ⟨?_, fun t => not_connected_after_reset w T a h t hrec⟩, ?_⟩
    · rw [reset_of_recorded T a h w hrec]
    · simp [isTweening, (reset_engine w T).1, h0]
  · intro h0
    simp [_tweenCompleted, isTweening, h0]

/-- C7 at object 2 of `heap1` once the engine has dropped its tweens. -/
theorem tweenCompleted_effect_witness :
    (_tweenCompleted registry 2 { heap1 with engine := [] }).tweenerState 2 = some ⟨none⟩ ∧
    (_tweenCompleted registry 2 { heap1 with engine := [] }).destroyHandlers 1 = [] ∧
    _tweenCompleted registry 2 heap1 = heap1 :=
  ⟨((tweenCompleted_effect registry { heap1 with engine := [] } 2).1 (by decide)).1,
   by decide,
   (tweenCompleted_effect registry heap1 2).2 (by decide)⟩

/-! ## Idempotence of the reset -/

theorem not_recorded_after_reset (w : World σ) (T a h : Nat) :
    ¬ Recorded (_resetTweenState T w) T a h := by
  intro hr
  have := hr.1
  rw [reset_state] at this
  simp at this

/-- C9: `_resetTweenState` applied twice gives the same world as applied once (same
state objects, same connected handlers, same signal log, so the second application
disconnects nothing); a second `_actorDestroyed(T)`, or one for a `T` with no
subscription on record, disconnects nothing, changes no handler list and leaves the
state object of `T` as `{}`. -/
theorem reset_idempotent (E : Engine σ) (w : World σ) (T : Nat) :
    _resetTweenState T (_resetTweenState T w) = _resetTweenState T w ∧
    ((_actorDestroyed E T (_actorDestroyed E T w)).signalLog = (_actorDestroyed E T w).signalLog ∧
      (_actorDestroyed E T (_actorDestroyed E T w)).destroyHandlers =
        (_actorDestroyed E T w).destroyHandlers ∧
      (_actorDestroyed E T (_actorDestroyed E T w)).tweenerState =
        (_actorDestroyed E T w).tweenerState ∧
      (_actorDestroyed E T (_actorDestroyed E T w)).tweenerState T = some ⟨none⟩) ∧
    ((∀ a h, ¬ Recorded w T a h) →
      (_actorDestroyed E T w).signalLog = w.signalLog ∧
      (_actorDestroyed E T w).destroyHandlers = w.destroyHandlers ∧
      (_actorDestroyed E T w).tweenerState T = some ⟨none⟩) := by
  have key : ∀ v : World σ, (∀ a h, ¬ Recorded v T a h) →
      (_resetTweenState T v).signalLog = v.signalLog ∧
      (_resetTweenState T v).destroyHandlers = v.destroyHandlers := by
    intro v hv
    rw [reset_of_not_recorded T v hv]
    exact ⟨rfl, rfl⟩
  have hnr : ∀ a h, ¬ Recorded (_actorDestroyed E T w) T a h := by
    intro a h hr
    exact not_recorded_after_reset w T a h ⟨hr.1, hr.2⟩
  refine ⟨?_, ⟨?_, ?_, ?_, reset_state _ T⟩, fun hn => ⟨?_, ?_, reset_state w T⟩⟩
  · rw [reset_of_not_recorded T (_resetTweenState T w) (not_recorded_after_reset w T)]
    ext1 <;> simp [reset_state]
  · exact (key _ hnr).1
  · exact (key _ hnr).2
  · show (_resetTweenState T (_actorDestroyed E T w)).tweenerState = _
    rw [reset_of_not_recorded T _ hnr]
    show Function.update (_resetTweenState T w).tweenerState T _ = (_resetTweenState T w).tweenerState
    rw [← reset_state w T]
    exact Function.update_eq_self _ _
  · exact (key w hn).1
  · exact (key w hn).2

/-- C9 at object 2 of `heap1`: a second reset changes nothing, and object 3, never
wrapped, absorbs a destruction notification. -/
theorem reset_idempotent_witness :
    _resetTweenState 2 (_resetTweenState 2 heap1) = _resetTweenState 2 heap1 ∧
    (_actorDestroyed registry 3 heap1).signalLog = heap1.signalLog :=
  ⟨(reset_idempotent registry heap1 2).1,
   ((reset_idempotent registry heap1 3).2.2
      (fun a h hr => by simp [Recorded, heap1, heap0, World.init, exec, step, addTween,
        _wrapTweening, subscribe, _getTweenState, TweenState.hasDestroyedId, connect] at hr)).1⟩

/-! ## Manual removal -/

theorem removeTweens_engineLog (E : Engine σ) (T : Nat) (P : List Val) (w : World σ) :
    (removeTweens E T P w).2.engineLog =
      .removeTweens (.packed (.obj T :: P)) :: w.engineLog := by
  simp only [removeTweens, _tweenCompleted]
  split
  · split
    · split
      · exact (reset_engine _ T).2.1
      · rfl
    · rfl
  · rfl

/-- C3: in a reachable world (handler ids from a non-zero start), when the engine call
made by the facade's `removeTweens(T)` reports success and leaves no tween on `T`, the
facade returns true, the state object of `T` is `{}`, no handler is connected for `T`
and `isTweening(T)` is false; and state objects, connected handlers, signal log and
next handler id are those reached when the engine itself gets to a state without
tweens on `T` and `_tweenCompleted(T)` runs. -/
theorem removeTweens_as_completion (E : Engine σ) (n0 : Nat) (w : World σ) (T : Nat)
    (hn0 : 0 < n0) (hreach : Reachable E n0 w)
    (hok : (E.removeTweens (.packed [.obj T]) w.engine).1 = true)
    (hzero : E.getTweenCount (.obj T) (E.removeTweens (.packed [.obj T]) w.engine).2 = 0) :
    (removeTweens E T [] w).1 = true ∧
    (removeTweens E T [] w).2.tweenerState T = some ⟨none⟩ ∧
    (∀ a h, ¬ Connected (removeTweens E T [] w).2 T a h) ∧
    isTweening E (.obj T) (removeTweens E T [] w).2 = false ∧
    ∀ e, E.getTweenCount (.obj T) e = 0 →
      (removeTweens E T [] w).2.tweenerState =
        (_tweenCompleted E T { w with engine := e }).tweenerState ∧
      (removeTweens E T [] w).2.destroyHandlers =
        (_tweenCompleted E T { w with engine := e }).destroyHandlers ∧
      (removeTweens E T [] w).2.signalLog =
        (_tweenCompleted E T { w with engine := e }).signalLog ∧
      (removeTweens E T [] w).2.nextHandlerId =
        (_tweenCompleted E T { w with engine := e }).nextHandlerId ∧
      isTweening E (.obj T) (_tweenCompleted E T { w with engine := e }) = false := by
  have hI := inv_of_reachable hn0 hreach
  have hI1 : Inv ({ w with
      engine := (E.removeTweens (.packed [.obj T]) w.engine).2
      engineLog := .removeTweens (.packed [.obj T]) :: w.engineLog } : World σ) :=
    inv_frame hI rfl rfl rfl rfl
  have hrem : removeTweens E T [] w = (true, _resetTweenState T { w with
      engine := (E.removeTweens (.packed [.obj T]) w.engine).2
      engineLog := .removeTweens (.packed [.obj T]) :: w.engineLog }) := by
    simp [removeTweens, hok, hzero, _tweenCompleted, isTweening]
  have hframe : ∀ (v v' : World σ), v'.tweenerState = v.tweenerState →
      v'.destroyHandlers = v.destroyHandlers → v'.signalLog = v.signalLog →
      v'.nextHandlerId = v.nextHandlerId →
      (_resetTweenState T v').tweenerState = (_resetTweenState T v).tweenerState ∧
      (_resetTweenState T v').destroyHandlers = (_resetTweenState T v).destroyHandlers ∧
      (_resetTweenState T v').signalLog = (_resetTweenState T v).signalLog ∧
      (_resetTweenState T v').nextHandlerId = (_resetTweenState T v).nextHandlerId := by
    intro v v' h1 h2 h3 h4
    unfold _resetTweenState
    rw [h1]
    cases v.tweenerState T with
    | none => simp [h1, h2, h3, h4]
    | some st =>
      obtain ⟨sub⟩ := st
      cases sub with
      | none => simp [h1, h2, h3, h4]
      | some s =>
        by_cases h0 : s.destroyedId = 0 <;> simp [h0, disconnect, h1, h2, h3, h4]
  rw [hrem]
  refine ⟨rfl, reset_state _ T, fun a h => not_connected_target_after_reset hI1 T a h, ?_, ?_⟩
  · simp [isTweening, (reset_engine _ T).1, hzero]
  · intro e he
    have hc : _tweenCompleted E T { w with engine := e } =
        _resetTweenState T { w with engine := e } := by
      simp [_tweenCompleted, isTweening, he]
    rw [hc]
    obtain ⟨h1, h2, h3, h4⟩ := hframe { w with engine := e } { w with
      engine := (E.removeTweens (.packed [.obj T]) w.engine).2
      engineLog := .removeTweens (.packed [.obj T]) :: w.engineLog } rfl rfl rfl rfl
    refine ⟨h1, h2, h3, h4, ?_⟩
    simp [isTweening, (reset_engine _ T).1, he]

/-- C3 at object 2 of `heap1`, whose two tweens the facade call removes. -/
theorem removeTweens_as_completion_witness :
    (removeTweens registry 2 [] heap1).1 = true ∧
    (removeTweens registry 2 [] heap1).2.tweenerState =
      (_tweenCompleted registry 2 { heap1 with engine := [] }).tweenerState :=
  have h := removeTweens_as_completion registry 1 heap1 2 (by decide) ⟨_, _, _, _, _, rfl⟩
    (by decide) (by decide)
  ⟨h.1, (h.2.2.2.2 [] (by decide)).1⟩

/-- C4: `removeTweens(T, ...P)` calls the engine with one argument, the array
`[T, ...P]`, where `pauseTweens` and `resumeTweens` spread their arguments; the facade
returns what the engine reports.  On `heap1`, where object 2 has a tween on `x` and one
on `opacity`, `removeTweens(obj 2, 'opacity')` therefore reaches the registry as a list
of targets and removes both tweens, although the selector `(obj 2, 'opacity')` names
only one of them. -/
theorem removeTweens_forwards_array :
    (∀ (σ : Type) (E : Engine σ) (T : Nat) (P : List Val) (w : World σ),
      (removeTweens E T P w).2.engineLog =
        .removeTweens (.packed (.obj T :: P)) :: w.engineLog ∧
      (pauseTweens E (.obj T :: P) w).2.engineLog =
        .pauseTweens (.spread (.obj T :: P)) :: w.engineLog ∧
      (resumeTweens E (.obj T :: P) w).2.engineLog =
        .resumeTweens (.spread (.obj T :: P)) :: w.engineLog ∧
      (removeTweens E T P w).1 = (E.removeTweens (.packed (.obj T :: P)) w.engine).1) ∧
    heap1.engine = [(2, "x"), (2, "opacity")] ∧
    (registry.removeTweens (.spread [.obj 2, .str "opacity"]) heap1.engine).2 = [(2, "x")] ∧
    (removeTweens registry 2 [.str "opacity"] heap1).2.engine = [] ∧
    (removeTweens registry 2 [.str "opacity"] heap1).2.tweenerState 2 = some ⟨none⟩ ∧
    (removeTweens registry 2 [.str "opacity"] heap1).2.destroyHandlers 1 = [] := by
  refine ⟨fun σ E T P w => ⟨removeTweens_engineLog E T P w, rfl, rfl, ?_⟩,
    by decide, by decide, by decide, by decide, by decide⟩
  simp only [removeTweens]
  split
  · split <;> simp_all
  · simp_all

/-! ## Subscriptions in reachable worlds -/

/-- C10: in every world reached from an initial world whose handler ids start above
zero, by any run of wraps, destruction notifications, completion hooks, facade calls,
engine progress and reassignments of `actor`: a state object records `(a, h)` exactly
when handler `h` is connected to `a` for that target, and every recorded id is truthy;
every `disconnect(a, h)` in the signal log comes after a `connect` of `h` to the same
`a`, which is the only `connect` that ever returned `h`; no id is disconnected twice;
and a disconnected id is connected nowhere. -/
theorem subscriptions_consistent (E : Engine σ) (n0 : Nat) (w : World σ) (hn0 : 0 < n0)
    (hreach : Reachable E n0 w) :
    (∀ T a h, Recorded w T a h ↔ Connected w T a h) ∧
    (∀ T a h, w.tweenerState T = some ⟨some ⟨a, h⟩⟩ → h ≠ 0) ∧
    (∀ pre post a h, w.signalLog = pre ++ SigOp.disconnect a h :: post →
      ∃ T, SigOp.connect a h T ∈ post ∧
        ∀ a' T', SigOp.connect a' h T' ∈ w.signalLog → a' = a ∧ T' = T) ∧
    (disconnected w.signalLog).Nodup ∧
    (∀ a h, SigOp.disconnect a h ∈ w.signalLog → ∀ T b, ¬ Connected w T b h) := by
  have hI := inv_of_reachable hn0 hreach
  refine ⟨fun T a h => ⟨fun hr => hI.connected T a h hr.1, fun hc =>
      ⟨hI.recorded a h T hc, Nat.pos_iff_ne_zero.mp (hI.ids a h T hc).1⟩⟩,
    fun T a h hst => (hI.recorded_of_state hst).2, ?_, hI.discOnce,
    fun a h hd T b => hI.discGone a h hd b T⟩
  intro pre post a h hsplit
  obtain ⟨T, hT⟩ := hI.discNamed pre post a h hsplit
  have hin : SigOp.connect a h T ∈ w.signalLog := by
    rw [hsplit]; simp [hT]
  exact ⟨T, hT, fun a' T' h' => hI.connUnique a' a h T' T h' hin⟩

/-- A run on `heap0`: object 2 is wrapped, its `actor` is reassigned to object 5, its
destruction is notified, and it is wrapped again. -/
theorem subscriptions_consistent_witness :
    (disconnected (exec registry heap0
      [.addTween 2 bagOpacityX, .setActorProp 2 (some 5), .actorDestroyed 2,
        .addTween 2 bagOpacityX]).signalLog).Nodup :=
  (subscriptions_consistent registry 1 _ (by decide) ⟨_, _, _, _, _, rfl⟩).2.2.2.1

/-! ## One subscription per target -/

theorem length_filter_le_one {α : Type} {l : List α} (hn : l.Nodup) (p : α → Bool)
    (h : ∀ x ∈ l, ∀ y ∈ l, p x = true → p y = true → x = y) : (l.filter p).length ≤ 1 := by
  have hnf : (l.filter p).Nodup := hn.filter p
  cases hf : l.filter p with
  | nil => simp
  | cons x rest =>
    cases rest with
    | nil => simp
    | cons y rest =>
      exfalso
      have hx : x ∈ l.filter p := by rw [hf]; simp
      have hy : y ∈ l.filter p := by rw [hf]; simp
      rw [List.mem_filter] at hx hy
      have hxy := h x hx.1 y hy.1 hx.2 hy.2
      rw [hf, hxy] at hnf
      simp at hnf

/-- The handlers connected to `b` whose callback is for target `T`. -/
theorem handlers_for_le_one {w : World σ} (hI : Inv w) (T b : Nat) :
    ((w.destroyHandlers b).filter (fun e => e.2 == T)).length ≤ 1 := by
  refine length_filter_le_one (hI.nodup b) _ ?_
  intro x hx y hy px py
  obtain ⟨i, t⟩ := x
  obtain ⟨j, t'⟩ := y
  simp only [beq_iff_eq] at px py
  rw [px] at hx
  rw [py] at hy
  have e1 := hI.recorded b i T hx
  have e2 := hI.recorded b j T hy
  rw [e1] at e2
  simp only [Option.some.injEq, TweenState.mk.injEq, Subscription.mk.injEq] at e2
  rw [e2.2, px, py]

/-- After `subscribe` a target that resolves to a Destroyable has a subscription on
record: the one it had, or the one just made. -/
theorem recorded_after_subscribe {w : World σ} (hI : Inv w) (T a : Nat)
    (hd : destroyableOf w T = some a) :
    (∃ b i, Recorded w T b i ∧ subscribe T w = w) ∨
    ((∀ b i, ¬ Recorded w T b i) ∧ Recorded (subscribe T w) T a w.nextHandlerId) := by
  by_cases hrec : ∃ b i, Recorded w T b i
  · obtain ⟨b, i, hr⟩ := hrec
    refine Or.inl ⟨b, i, hr, subscribe_of_subscribed T w _ hr.1 ?_⟩
    simp [TweenState.hasDestroyedId, hr.2]
  · have hn : ∀ b i, ¬ Recorded w T b i := fun b i hr => hrec ⟨b, i, hr⟩
    have hns : ∀ st, w.tweenerState T = some st → st.hasDestroyedId = false := by
      intro st hst
      obtain ⟨sub⟩ := st
      cases sub with
      | none => rfl
      | some s => exact absurd (hI.recorded_of_state hst) (hn s.actor s.destroyedId)
    refine Or.inr ⟨hn, ?_, Nat.pos_iff_ne_zero.mp hI.pos⟩
    rw [subscribe_of_resolved T a w hns hd]
    simp

theorem wrap_twice_resolved {w : World σ} (hI : Inv w) (T a : Nat) (p1 p2 : Params)
    (hd : destroyableOf w T = some a) :
    (∃ b i, Recorded (_wrapTweening T p2 (_wrapTweening T p1 w).2).2 T b i ∧
      Connected (_wrapTweening T p2 (_wrapTweening T p1 w).2).2 T b i ∧
      (((_wrapTweening T p2 (_wrapTweening T p1 w).2).2.destroyHandlers b).filter
        (fun e => e.2 == T)).length = 1 ∧
      ∀ b' i', Connected (_wrapTweening T p2 (_wrapTweening T p1 w).2).2 T b' i' →
        b' = b ∧ i' = i) ∧
    (_wrapTweening T p2 (_wrapTweening T p1 w).2).2 = (_wrapTweening T p1 w).2 ∧
    ((∀ b i, ¬ Recorded w T b i) →
      Recorded (_wrapTweening T p2 (_wrapTweening T p1 w).2).2 T a w.nextHandlerId ∧
      (_wrapTweening T p1 w).2.signalLog = .connect a w.nextHandlerId T :: w.signalLog) := by
  have hI1 : Inv (subscribe T w) := inv_subscribe hI T
  have huniq : ∀ {v : World σ}, Inv v → ∀ T' b b' i i', Connected v T' b i →
      Connected v T' b' i' → b = b' ∧ i = i' := by
    intro v hv T' b b' i i' h1 h2
    have e1 := hv.recorded b i T' h1
    have e2 := hv.recorded b' i' T' h2
    rw [e1] at e2
    simp only [Option.some.injEq, TweenState.mk.injEq, Subscription.mk.injEq] at e2
    exact e2
  have hrec1 : ∃ b i, Recorded (subscribe T w) T b i := by
    rcases recorded_after_subscribe hI T a hd with ⟨b, i, hr, he⟩ | ⟨-, hr⟩
    · exact ⟨b, i, by rw [he]; exact hr⟩
    · exact ⟨a, _, hr⟩
  obtain ⟨b, i, hr1⟩ := hrec1
  have h2 : subscribe T (subscribe T w) = subscribe T w :=
    subscribe_of_subscribed T _ _ hr1.1 (by simp [TweenState.hasDestroyedId, hr1.2])
  simp only [_wrapTweening]
  rw [h2]
  refine ⟨⟨b, i, hr1, hI1.connected T b i hr1.1, ?_, fun b' i' hc => ?_⟩, rfl, fun hn => ?_⟩
  · refine le_antisymm (handlers_for_le_one hI1 T b) ?_
    refine List.length_pos_of_mem (a := (i, T)) ?_
    rw [List.mem_filter]
    exact ⟨hI1.connected T b i hr1.1, by simp⟩
  · exact huniq hI1 T b' b i' i hc (hI1.connected T b i hr1.1)
  · rcases recorded_after_subscribe hI T a hd with ⟨b', i', hr, -⟩ | ⟨-, hr⟩
    · exact absurd hr (hn b' i')
    · refine ⟨hr, ?_⟩
      have hns : ∀ st, w.tweenerState T = some st → st.hasDestroyedId = false := by
        intro st hst
        obtain ⟨sub⟩ := st
        cases sub with
        | none => rfl
        | some s => exact absurd (hI.recorded_of_state hst) (hn s.actor s.destroyedId)
      rw [subscribe_of_resolved T a w hns hd]

theorem wrap_twice_unresolved (w : World σ) (T : Nat) (p1 p2 : Params)
    (hd : destroyableOf w T = none) :
    (_wrapTweening T p2 (_wrapTweening T p1 w).2).2 = (_wrapTweening T p1 w).2 ∧
    (_wrapTweening T p1 w).2.destroyHandlers = w.destroyHandlers ∧
    (_wrapTweening T p1 w).2.signalLog = w.signalLog := by
  simp only [_wrapTweening]
  by_cases hsub : ∃ st, w.tweenerState T = some st ∧ st.hasDestroyedId = true
  · obtain ⟨st, h1, h2⟩ := hsub
    rw [subscribe_of_subscribed T w st h1 h2, subscribe_of_subscribed T w st h1 h2]
    exact ⟨rfl, rfl, rfl⟩
  · have hns : ∀ st, w.tweenerState T = some st → st.hasDestroyedId = false := by
      intro st hst
      by_contra hc
      exact hsub ⟨st, hst, by simpa using hc⟩
    have e1 := subscribe_of_unresolved T w hns hd
    have hns1 : ∀ st, (subscribe T w).tweenerState T = some st →
        st.hasDestroyedId = false := by
      intro st hst
      rw [e1] at hst
      simp only [Function.update_same, Option.some.injEq] at hst
      subst hst
      cases h : w.tweenerState T with
      | none => rfl
      | some st0 => exact hns st0 h
    have hd1 : destroyableOf (subscribe T w) T = none := by
      rw [← hd, e1]
      exact destroyableOf_congr rfl rfl T
    refine ⟨?_, by rw [e1], by rw [e1]⟩
    rw [subscribe_of_unresolved T _ hns1 hd1]
    ext1 <;> try rfl
    show Function.update (subscribe T w).tweenerState T _ = (subscribe T w).tweenerState
    rw [e1]
    simp

/-- C2 (amended): in a reachable world (handler ids from a non-zero start), after
`_wrapTweening(T, p1)` and then `_wrapTweening(T, p2)`: when `T` is an actor or its
`actor` is one, exactly one handler is connected for `T`, it is the one on record,
and, when `T` had no subscription on record before, its id is the one the first
call's `connect` returned; when `T` is neither, the first call connects nothing; in
both cases the second call leaves the whole world as the first left it; and in the
reachable world itself no target has two connected handlers. -/
theorem wrap_twice_one_subscription (E : Engine σ) (n0 : Nat) (w : World σ) (T : Nat)
    (p1 p2 : Params) (hn0 : 0 < n0) (hreach : Reachable E n0 w) :
    (∀ a, destroyableOf w T = some a →
      (∃ b i, Recorded (_wrapTweening T p2 (_wrapTweening T p1 w).2).2 T b i ∧
        Connected (_wrapTweening T p2 (_wrapTweening T p1 w).2).2 T b i ∧
        (((_wrapTweening T p2 (_wrapTweening T p1 w).2).2.destroyHandlers b).filter
          (fun e => e.2 == T)).length = 1 ∧
        ∀ b' i', Connected (_wrapTweening T p2 (_wrapTweening T p1 w).2).2 T b' i' →
          b' = b ∧ i' = i) ∧
      ((∀ b i, ¬ Recorded w T b i) →
        Recorded (_wrapTweening T p2 (_wrapTweening T p1 w).2).2 T a w.nextHandlerId ∧
        (_wrapTweening T p1 w).2.signalLog = .connect a w.nextHandlerId T :: w.signalLog)) ∧
    (destroyableOf w T = none →
      (_wrapTweening T p1 w).2.destroyHandlers = w.destroyHandlers ∧
      (_wrapTweening T p1 w).2.signalLog = w.signalLog) ∧
    (_wrapTweening T p2 (_wrapTweening T p1 w).2).2 = (_wrapTweening T p1 w).2 ∧
    (∀ T' b b' i i', Connected w T' b i → Connected w T' b' i' → b = b' ∧ i = i') ∧
    (∀ T' b, ((w.destroyHandlers b).filter (fun e => e.2 == T')).length ≤ 1) := by
  have hI := inv_of_reachable hn0 hreach
  refine ⟨fun a hd => ⟨(wrap_twice_resolved hI T a p1 p2 hd).1,
      (wrap_twice_resolved hI T a p1 p2 hd).2.2⟩,
    fun hd => (wrap_twice_unresolved w T p1 p2 hd).2, ?_, ?_,
    fun T' b => handlers_for_le_one hI T' b⟩
  · cases hd : destroyableOf w T with
    | some a => exact (wrap_twice_resolved hI T a p1 p2 hd).2.1
    | none => exact (wrap_twice_unresolved w T p1 p2 hd).1
  · intro T' b b' i i' h1 h2
    have e1 := hI.recorded b i T' h1
    have e2 := hI.recorded b' i' T' h2
    rw [e1] at e2
    simp only [Option.some.injEq, TweenState.mk.injEq, Subscription.mk.injEq] at e2
    exact e2

/-- C2 (amended) at object 2 of `heap0`, wrapped twice. -/
theorem wrap_twice_one_subscription_witness :
    destroyableOf heap0 2 = some 1 ∧
    Recorded (_wrapTweening 2 bagWithHook (_wrapTweening 2 bagOpacityX heap0).2).2 2 1 1 :=
  ⟨by decide,
   (((wrap_twice_one_subscription registry 1 heap0 2 bagOpacityX bagWithHook (by decide)
      ⟨_, _, _, _, [], rfl⟩).1 1 (by decide)).2
      (fun b i hr => by simp [Recorded, heap0, World.init] at hr)).1⟩

/-- C2 fails as stated: object 3 of `heap0` is no actor and has no `actor`, and after
two wraps no handler is connected for it. -/
theorem wrap_twice_plain_target_no_subscription :
    ¬ ∃ a h, Connected
      (_wrapTweening 3 bagWithHook (_wrapTweening 3 bagOpacityX heap0).2).2 3 a h := by
  rintro ⟨a, h, hc⟩
  have hd : destroyableOf heap0 3 = none := by decide
  have e1 : subscribe 3 heap0 = { heap0 with
      tweenerState := Function.update heap0.tweenerState 3 (some ⟨none⟩) } := by
    rw [subscribe_of_unresolved 3 heap0 (fun st hst => by simp [heap0, World.init] at hst) hd]
    rfl
  simp only [_wrapTweening, e1] at hc
  rw [subscribe_of_unresolved 3 _ (fun st hst => by
    simp only [Function.update_same, Option.some.injEq] at hst
    rw [← hst]; rfl) (by decide)] at hc
  simp [Connected, heap0, World.init] at hc

/-! ## HandlerChain -/

/-- C5 (amended): after `_addHandler(T, params, n, I)`, an invocation of `params[n]`
that enters the closure does this.  When `params[n]` was truthy (a hook was declared)
it applies the old value with receiver `params[n + 'Scope']` if that is truthy, else
`T`, and argument list `params[n + 'Params']`, and then, unless that ended with an
exception, calls `I` with `T`.  So for an outside function `H` and an argument list
`apply` takes: `H` once, then `I` once with `T`, when `H` returns; `H` once and `I`
not at all when `H` throws.  With a primitive argument list neither is called.  When
`params[n]` was falsy only `I` is called, once, with `T`. -/
theorem addHandler_call_sequence (throws : Event → Bool) (T : Val) (params : Params)
    (n : String) (I : FnRef) (how : Invocation) (hhow : how.accepted = true) :
    (truthy (params n) = true →
      invoke throws (_addHandler T params n (.fn I) n) how =
        (invoke throws (params n)
          (.apply (if truthy (params (n ++ "Scope")) then params (n ++ "Scope") else T)
            (params (n ++ "Params")))).andThen (invoke throws (.fn I) (.call T))) ∧
    (∀ H, params n = .fn H → argArrayOk (params (n ++ "Params")) = true →
      (throws (.applied (.fn H)
          (if truthy (params (n ++ "Scope")) then params (n ++ "Scope") else T)
          (params (n ++ "Params"))) = false →
        (invoke throws (_addHandler T params n (.fn I) n) how).events =
          [.applied (.fn H)
            (if truthy (params (n ++ "Scope")) then params (n ++ "Scope") else T)
            (params (n ++ "Params")), .called (.fn I) T]) ∧
      (throws (.applied (.fn H)
          (if truthy (params (n ++ "Scope")) then params (n ++ "Scope") else T)
          (params (n ++ "Params"))) = true →
        invoke throws (_addHandler T params n (.fn I) n) how =
          ⟨[.applied (.fn H)
            (if truthy (params (n ++ "Scope")) then params (n ++ "Scope") else T)
            (params (n ++ "Params"))], true⟩)) ∧
    (∀ H, params n = .fn H → argArrayOk (params (n ++ "Params")) = false →
      invoke throws (_addHandler T params n (.fn I) n) how = ⟨[], true⟩) ∧
    (truthy (params n) = false →
      (invoke throws (_addHandler T params n (.fn I) n) how).events =
        [.called (.fn I) T]) := by
  have key : truthy (params n) = true →
      invoke throws (_addHandler T params n (.fn I) n) how =
        (invoke throws (params n)
          (.apply (if truthy (params (n ++ "Scope")) then params (n ++ "Scope") else T)
            (params (n ++ "Params")))).andThen (invoke throws (.fn I) (.call T)) := by
    intro ht
    simp [_addHandler, ht, invoke, hhow]
  have hfn : ∀ H, params n = .fn H → truthy (params n) = true := by
    intro H hH
    rw [hH]
    rfl
  refine ⟨key, fun H hH hA => ⟨fun hth => ?_, fun hth => ?_⟩, fun H hH hA => ?_,
    fun ht => ?_⟩
  · rw [key (hfn H hH), hH]
    simp only [invoke, hA, Run.andThen, hth]
    simp
  · rw [key (hfn H hH), hH]
    simp only [invoke, hA, Run.andThen, hth]
    simp
  · rw [key (hfn H hH), hH]
    simp only [invoke, hA, Run.andThen, Run.typeError]
    simp
  · simp [_addHandler, ht, invoke, hhow]

/-- C5 (amended) at a bag that declares hook, scope and argument list, with a hook
that returns. -/
theorem addHandler_call_sequence_witness :
    (invoke (fun _ => false)
        (_addHandler (.obj 1) bagWithHook "onComplete" (.fn .tweenCompleted) "onComplete")
        (.call .undefined)).events =
      [.applied (.fn (.ext 7)) (.obj 3) (.obj 9), .called (.fn .tweenCompleted) (.obj 1)] :=
  ((addHandler_call_sequence (fun _ => false) (.obj 1) bagWithHook "onComplete"
    .tweenCompleted (.call .undefined) rfl).2.1 (.ext 7) (by decide) (by decide)).1 rfl

/-- C5 fails as stated: when the declared hook `fn 7` throws, the composed callback
has called it once and never calls the internal hook. -/
theorem addHandler_hook_throws :
    invoke (fun e => decide (e = .applied (.fn (.ext 7)) (.obj 3) (.obj 9)))
        (_addHandler (.obj 1) bagWithHook "onComplete" (.fn .tweenCompleted) "onComplete")
        (.call .undefined) =
      ⟨[.applied (.fn (.ext 7)) (.obj 3) (.obj 9)], true⟩ ∧
    Event.called (.fn .tweenCompleted) (.obj 1) ∉
      (invoke (fun e => decide (e = .applied (.fn (.ext 7)) (.obj 3) (.obj 9)))
        (_addHandler (.obj 1) bagWithHook "onComplete" (.fn .tweenCompleted) "onComplete")
        (.call .undefined)).events := by
  have h : invoke (fun e => decide (e = .applied (.fn (.ext 7)) (.obj 3) (.obj 9)))
        (_addHandler (.obj 1) bagWithHook "onComplete" (.fn .tweenCompleted) "onComplete")
        (.call .undefined) =
      ⟨[.applied (.fn (.ext 7)) (.obj 3) (.obj 9)], true⟩ := by
    simp [_addHandler, bagWithHook, truthy, invoke, Invocation.accepted, argArrayOk,
      Run.andThen]
  rw [h]
  exact ⟨rfl, by simp⟩

theorem addHandler_other (T : Val) (params : Params) (n : String) (handler : Val) (k : String)
    (hk : k ≠ n) : _addHandler T params n handler k = params k := by
  unfold _addHandler
  split <;> simp [Function.update, hk]

/-- C8: after `_wrapTweening(T, params)`, with animations disabled `params.time` and
`params.delay` both hold 1/1000000, which is strictly positive; with animations
enabled both hold what the caller supplied. -/
theorem wrap_time_delay (T : Nat) (params : Params) (w : World σ) :
    (w.enableAnimations = false →
      ∃ v : ℚ, v = 1 / 1000000 ∧ 0 < v ∧
        (_wrapTweening T params w).1 "time" = .num v ∧
        (_wrapTweening T params w).1 "delay" = .num v) ∧
    (w.enableAnimations = true →
      (_wrapTweening T params w).1 "time" = params "time" ∧
      (_wrapTweening T params w).1 "delay" = params "delay") := by
  have h1 : ("time" : String) ≠ "onComplete" := by decide
  have h2 : ("delay" : String) ≠ "onComplete" := by decide
  have h3 : ("time" : String) ≠ "delay" := by decide
  refine ⟨fun h => ⟨1 / 1000000, rfl, by norm_num, ?_, ?_⟩, fun h => ⟨?_, ?_⟩⟩
  · simp [_wrapTweening, wrapParams, h, addHandler_other _ _ _ _ _ h1, Function.update, h3]
  · simp [_wrapTweening, wrapParams, h, addHandler_other _ _ _ _ _ h2, Function.update]
  · simp [_wrapTweening, wrapParams, h, addHandler_other _ _ _ _ _ h1]
  · simp [_wrapTweening, wrapParams, h, addHandler_other _ _ _ _ _ h2]

/-- C8 on `heap0` with animations switched off, and with them on. -/
theorem wrap_time_delay_witness :
    (_wrapTweening 2 bagOpacityX { heap0 with enableAnimations := false }).1 "time" =
      .num (1 / 1000000) ∧
    (_wrapTweening 2 bagOpacityX heap0).1 "delay" = .num 0 :=
  ⟨by
    obtain ⟨v, hv, -, ht, -⟩ :=
      (wrap_time_delay 2 bagOpacityX { heap0 with enableAnimations := false }).1 rfl
    rw [ht, hv],
   ((wrap_time_delay 2 bagOpacityX heap0).2 rfl).2⟩

end Tweener

namespace Double

/-! ## Rounding to the nearest double -/

theorem roundHalfEven_bounds (x : ℚ) : ⌊x⌋ ≤ roundHalfEven x ∧ roundHalfEven x ≤ ⌊x⌋ + 1 := by
  unfold roundHalfEven
  split_ifs <;> constructor <;> omega

theorem roundHalfEven_intCast (n : ℤ) : roundHalfEven (n : ℚ) = n := by
  simp [roundHalfEven]

theorem roundHalfEven_mono {x y : ℚ} (h : x ≤ y) : roundHalfEven x ≤ roundHalfEven y := by
  have hf : ⌊x⌋ ≤ ⌊y⌋ := Int.floor_mono h
  rcases lt_or_eq_of_le hf with hlt | heq
  · exact le_trans (roundHalfEven_bounds x).2 (le_trans hlt (roundHalfEven_bounds y).1)
  · have hy := (roundHalfEven_bounds y).1
    unfold roundHalfEven
    rw [heq]
    have hxy : x - (⌊y⌋ : ℚ) ≤ y - ⌊y⌋ := by linarith
    split_ifs <;> first | omega | (exfalso; linarith)

theorem roundHalfEven_eq_of_abs_lt {x : ℚ} {m : ℤ} (h : |x - m| < 1 / 2) :
    roundHalfEven x = m := by
  rw [abs_lt] at h
  have lo : roundHalfEven ((m : ℚ) - 1 / 2) ≤ roundHalfEven x := roundHalfEven_mono (by linarith)
  have hi : roundHalfEven x ≤ roundHalfEven ((m : ℚ) + 1 / 2) := roundHalfEven_mono (by linarith)
  by_cases hx : x < m
  · have hfl : ⌊x⌋ = m - 1 := by
      rw [Int.floor_eq_iff]; push_cast; constructor <;> linarith
    unfold roundHalfEven
    rw [hfl]; push_cast
    rw [if_neg (by linarith), if_pos (by linarith)]
    ring
  · have hfl : ⌊x⌋ = m := by
      rw [Int.floor_eq_iff]; constructor <;> linarith
    unfold roundHalfEven
    rw [hfl, if_pos (by linarith)]

theorem ulp_pos (x : ℚ) : 0 < ulp x := by
  unfold ulp; positivity

theorem ulp_mul (x : ℚ) : (2 : ℚ) ^ (52 : ℕ) * ulp x = (2 : ℚ) ^ Int.log 2 x := by
  unfold ulp
  rw [← zpow_natCast, ← zpow_add₀ (by norm_num : (2 : ℚ) ≠ 0)]
  congr 1
  push_cast
  ring

theorem ulp_mul_succ (x : ℚ) : (2 : ℚ) ^ (53 : ℕ) * ulp x = (2 : ℚ) ^ (Int.log 2 x + 1) := by
  unfold ulp
  rw [← zpow_natCast, ← zpow_add₀ (by norm_num : (2 : ℚ) ≠ 0)]
  congr 1
  push_cast
  ring

theorem roundPos_lower {x : ℚ} (hx : 0 < x) : (2 : ℚ) ^ Int.log 2 x ≤ roundPos x := by
  have h1 : (2 : ℚ) ^ Int.log 2 x ≤ x := by
    have := Int.zpow_log_le_self (b := 2) (by norm_num) hx
    simpa using this
  have hc : ((2 ^ 52 : ℤ) : ℚ) = (2 : ℚ) ^ (52 : ℕ) := by norm_num
  have h2 : ((2 ^ 52 : ℤ) : ℚ) ≤ x / ulp x := by
    rw [hc, le_div_iff₀ (ulp_pos x), ulp_mul]
    exact h1
  have h3 : (2 ^ 52 : ℤ) ≤ roundHalfEven (x / ulp x) := by
    have := roundHalfEven_mono h2
    rwa [roundHalfEven_intCast] at this
  have h4 : ((2 ^ 52 : ℤ) : ℚ) ≤ (roundHalfEven (x / ulp x) : ℚ) := by exact_mod_cast h3
  unfold roundPos
  rw [← ulp_mul, ← hc]
  exact mul_le_mul_of_nonneg_right h4 (ulp_pos x).le

theorem roundPos_upper {x : ℚ} (_hx : 0 < x) : roundPos x ≤ (2 : ℚ) ^ (Int.log 2 x + 1) := by
  have h1 : x < (2 : ℚ) ^ (Int.log 2 x + 1) := by
    have := Int.lt_zpow_succ_log_self (b := 2) (by norm_num) x
    simpa using this
  have hc : ((2 ^ 53 : ℤ) : ℚ) = (2 : ℚ) ^ (53 : ℕ) := by norm_num
  have h2 : x / ulp x ≤ ((2 ^ 53 : ℤ) : ℚ) := by
    rw [hc, div_le_iff₀ (ulp_pos x), ulp_mul_succ]
    exact h1.le
  have h3 : roundHalfEven (x / ulp x) ≤ (2 ^ 53 : ℤ) := by
    have := roundHalfEven_mono h2
    rwa [roundHalfEven_intCast] at this
  have h4 : (roundHalfEven (x / ulp x) : ℚ) ≤ ((2 ^ 53 : ℤ) : ℚ) := by exact_mod_cast h3
  unfold roundPos
  rw [← ulp_mul_succ, ← hc]
  exact mul_le_mul_of_nonneg_right h4 (ulp_pos x).le

theorem roundPos_pos {x : ℚ} (hx : 0 < x) : 0 < roundPos x :=
  lt_of_lt_of_le (by positivity) (roundPos_lower hx)

theorem roundPos_mono {x y : ℚ} (hx : 0 < x) (h : x ≤ y) : roundPos x ≤ roundPos y := by
  have hy : 0 < y := lt_of_lt_of_le hx h
  have hl : Int.log 2 x ≤ Int.log 2 y := Int.log_mono_right hx h
  rcases lt_or_eq_of_le hl with hlt | heq
  · refine le_trans (roundPos_upper hx) (le_trans ?_ (roundPos_lower hy))
    exact zpow_le_zpow_right₀ (by norm_num) (by omega)
  · have hu : ulp x = ulp y := by unfold ulp; rw [heq]
    unfold roundPos
    rw [hu]
    have h2 : x / ulp y ≤ y / ulp y := div_le_div_of_nonneg_right h (ulp_pos y).le
    have h3 : (roundHalfEven (x / ulp y) : ℚ) ≤ roundHalfEven (y / ulp y) := by
      exact_mod_cast roundHalfEven_mono h2
    exact mul_le_mul_of_nonneg_right h3 (ulp_pos y).le

theorem nearest_zero : nearest 0 = 0 := by simp [nearest]

theorem nearest_mono {x y : ℚ} (h : x ≤ y) : nearest x ≤ nearest y := by
  unfold nearest
  by_cases hx : 0 < x
  · have hy : 0 < y := lt_of_lt_of_le hx h
    rw [if_pos hx, if_pos hy]
    exact roundPos_mono hx h
  · rw [if_neg hx]
    by_cases hx0 : x < 0
    · rw [if_pos hx0]
      have hnx : 0 < roundPos (-x) := roundPos_pos (by linarith)
      by_cases hy : 0 < y
      · rw [if_pos hy]
        have := roundPos_pos hy
        linarith
      · rw [if_neg hy]
        by_cases hy0 : y < 0
        · rw [if_pos hy0]
          have := roundPos_mono (x := -y) (y := -x) (by linarith) (by linarith)
          linarith
        · rw [if_neg hy0]; linarith
    · rw [if_neg hx0]
      have hxz : x = 0 := le_antisymm (not_lt.mp hx) (not_lt.mp hx0)
      by_cases hy : 0 < y
      · rw [if_pos hy]; exact (roundPos_pos hy).le
      · rw [if_neg hy, if_neg (by linarith)]

theorem nearest_nonneg {x : ℚ} (h : 0 ≤ x) : 0 ≤ nearest x := by
  have := nearest_mono h
  rwa [nearest_zero] at this

/-- Evaluating `nearest` at a positive number whose binade and nearest mantissa are at hand. -/
theorem nearest_eq {x : ℚ} (e m : ℤ) (hx : 0 < x) (h1 : (2 : ℚ) ^ e ≤ x)
    (h2 : x < (2 : ℚ) ^ (e + 1)) (hm : |x / (2 : ℚ) ^ (e - 52) - m| < 1 / 2) :
    nearest x = m * (2 : ℚ) ^ (e - 52) := by
  have hlog : Int.log 2 x = e := by
    have a1 : e ≤ Int.log 2 x := by
      rw [← Int.zpow_le_iff_le_log (by norm_num) hx]; simpa using h1
    have a2 : Int.log 2 x < e + 1 := by
      rw [← Int.lt_zpow_iff_log_lt (by norm_num) hx]; simpa using h2
    omega
  unfold nearest roundPos ulp
  rw [if_pos hx, hlog, roundHalfEven_eq_of_abs_lt hm]


theorem roundHalfEven_error (z : ℚ) : |(roundHalfEven z : ℚ) - z| ≤ 1 / 2 := by
  have h1 : (⌊z⌋ : ℚ) ≤ z := Int.floor_le z
  have h2 : z < ⌊z⌋ + 1 := Int.lt_floor_add_one z
  unfold roundHalfEven
  rw [abs_le]
  split_ifs <;> push_cast <;> constructor <;> linarith

theorem roundPos_error {x : ℚ} (hx : 0 < x) : |roundPos x - x| ≤ x / 2 ^ 53 := by
  have hu := ulp_pos x
  have h1 : (2 : ℚ) ^ Int.log 2 x ≤ x := by
    have := Int.zpow_log_le_self (b := 2) (by norm_num) hx
    simpa using this
  have h2 : roundPos x - x = ((roundHalfEven (x / ulp x) : ℚ) - x / ulp x) * ulp x := by
    unfold roundPos
    field_simp
  have h3 : ulp x ≤ x / 2 ^ 52 := by
    rw [le_div_iff₀ (by positivity), mul_comm]
    have := ulp_mul x
    norm_num at this ⊢
    linarith
  rw [h2, abs_mul, abs_of_pos hu]
  calc |(roundHalfEven (x / ulp x) : ℚ) - x / ulp x| * ulp x
      ≤ 1 / 2 * ulp x := mul_le_mul_of_nonneg_right (roundHalfEven_error _) hu.le
    _ ≤ 1 / 2 * (x / 2 ^ 52) := by linarith
    _ = x / 2 ^ 53 := by ring

theorem nearest_error (x : ℚ) : |nearest x - x| ≤ |x| / 2 ^ 53 := by
  unfold nearest
  by_cases hx : 0 < x
  · rw [if_pos hx, abs_of_pos hx]
    exact roundPos_error hx
  · rw [if_neg hx]
    by_cases hx0 : x < 0
    · rw [if_pos hx0, abs_of_neg hx0]
      have := roundPos_error (x := -x) (by linarith)
      have h2 : -roundPos (-x) - x = -(roundPos (-x) - -x) := by ring
      rw [h2, abs_neg]
      exact this
    · rw [if_neg hx0]
      have hxz : x = 0 := le_antisymm (not_lt.mp hx) (not_lt.mp hx0)
      simp [hxz]

end Double

namespace ClutterFrameTicker

open Double

/-! ## The frame ticker -/

theorem monotonicMs_nonneg (n : Nat) : 0 ≤ monotonicMs n := by
  unfold monotonicMs Double.div Double.ofInt
  exact nearest_nonneg (div_nonneg (nearest_nonneg (Nat.cast_nonneg n)) (by norm_num))

theorem monotonicMs_mono {m n : Nat} (h : m ≤ n) : monotonicMs m ≤ monotonicMs n := by
  unfold monotonicMs Double.div Double.ofInt
  refine nearest_mono (div_le_div_of_nonneg_right (nearest_mono ?_) (by norm_num))
  exact_mod_cast h

/-- The double computed for a reading is within three roundings' worth of it. -/
theorem monotonicMs_error (n : Nat) :
    |monotonicMs n - (n : ℚ) / 1000| ≤ 3 * ((n : ℚ) / 1000) / 2 ^ 53 ∧
    monotonicMs n ≤ 2 * ((n : ℚ) / 1000) := by
  have hn : (0 : ℚ) ≤ n := Nat.cast_nonneg n
  have e1 := nearest_error (n : ℚ)
  rw [abs_of_nonneg hn, abs_le] at e1
  have hN : 0 ≤ nearest (n : ℚ) := nearest_nonneg hn
  have e2 := nearest_error (nearest (n : ℚ) / 1000)
  rw [abs_of_nonneg (div_nonneg hN (by norm_num)), abs_le] at e2
  unfold monotonicMs Double.div Double.ofInt
  rw [abs_le]
  norm_num at e1 e2 ⊢
  refine ⟨⟨?_, ?_⟩, ?_⟩ <;> linarith

theorem sub_error (s c : Nat) (h : s ≤ c) :
    |Double.sub (monotonicMs c) (monotonicMs s) - ((c : ℚ) - s) / 1000| ≤
      (c : ℚ) / 1000 / 2 ^ 50 := by
  have hs : (0 : ℚ) ≤ s := Nat.cast_nonneg s
  have hsc : (s : ℚ) ≤ c := by exact_mod_cast h
  obtain ⟨a1, a2⟩ := monotonicMs_error c
  obtain ⟨b1, -⟩ := monotonicMs_error s
  have hS := monotonicMs_nonneg s
  have hSC := monotonicMs_mono h
  have e := nearest_error (monotonicMs c - monotonicMs s)
  rw [abs_of_nonneg (show 0 ≤ monotonicMs c - monotonicMs s by linarith), abs_le] at e
  rw [abs_le] at a1 b1
  unfold Double.sub
  rw [abs_le]
  norm_num at a1 a2 b1 e ⊢
  constructor <;> linarith

theorem deliver_of_started (t : ClutterFrameTicker) (h : 0 ≤ t._startTime) (p : Pulse) :
    (t.deliver p)._startTime = t._startTime ∧
    (t.deliver p).getTime = Double.sub (monotonicMs p.clock) t._startTime := by
  simp [deliver, _onNewFrame, getTime, not_lt.mpr h]

theorem deliver_of_unset (t : ClutterFrameTicker) (h : t._startTime < 0) (p : Pulse) :
    (t.deliver p)._startTime = monotonicMs p.startRead ∧
    (t.deliver p).getTime = Double.sub (monotonicMs p.clock) (monotonicMs p.startRead) := by
  simp [deliver, _onNewFrame, getTime, h]

theorem elapsed_of_started (t : ClutterFrameTicker) (h : 0 ≤ t._startTime) (ps : List Pulse) :
    elapsed t ps = ps.map (fun q => Double.sub (monotonicMs q.clock) t._startTime) := by
  induction ps generalizing t with
  | nil => rfl
  | cons p ps ih =>
    obtain ⟨hs, hc⟩ := deliver_of_started t h p
    rw [elapsed, ih _ (by rw [hs]; exact h), hs, hc]
    rfl

theorem elapsed_of_unset (t : ClutterFrameTicker) (h : t._startTime < 0) (p : Pulse)
    (ps : List Pulse) :
    elapsed t (p :: ps) =
      ((p :: ps).map Pulse.clock).map
        (fun c => Double.sub (monotonicMs c) (monotonicMs p.startRead)) := by
  obtain ⟨hs, hc⟩ := deliver_of_unset t h p
  rw [elapsed, elapsed_of_started _ (by rw [hs]; exact monotonicMs_nonneg _), hs, hc]
  simp [List.map_map, Function.comp_def]

/-- C6 (amended): in a run (`start()` from an unset start time, then pulses whose
clock readings do not decrease, the first pulse reading the clock as `s` when it
latches the start time and as `t₁ ≥ s` when it computes the current time), `getTime()`
after the k-th pulse is the double `tₖ / 1000.0 - s / 1000.0`.  So the first pulse
yields the advance of the clock between its two readings, which is not negative and
is 0 when the two readings agree; the values do not decrease; the value after the k-th
pulse is `(tₖ - s) / 1000` up to `(tₖ / 1000) / 2 ^ 50`, and two pulses' values differ
by the gap between their readings up to the sum of these bounds; and the frame values
of the pulses play no part. -/
theorem elapsed_run (t : ClutterFrameTicker) (ht : t._startTime = -1) (p : Pulse)
    (ps : List Pulse) (hfirst : p.startRead ≤ p.clock)
    (hmono : List.Chain' (· ≤ ·) ((p :: ps).map Pulse.clock)) :
    elapsed t.start (p :: ps) =
      (p :: ps).map (fun q =>
        Double.sub (Double.div (Double.ofInt q.clock) 1000)
          (Double.div (Double.ofInt p.startRead) 1000)) ∧
    (∃ first, (elapsed t.start (p :: ps)).head? = some first ∧ 0 ≤ first ∧
      (p.startRead = p.clock → first = 0)) ∧
    List.Pairwise (· ≤ ·) (elapsed t.start (p :: ps)) ∧
    (∀ (k c : Nat) (e : ℚ), ((p :: ps).map Pulse.clock)[k]? = some c →
      (elapsed t.start (p :: ps))[k]? = some e →
      |e - ((c : ℚ) - p.startRead) / 1000| ≤ (c : ℚ) / 1000 / 2 ^ 50) ∧
    (∀ (i j ci cj : Nat) (ei ej : ℚ), ((p :: ps).map Pulse.clock)[i]? = some ci →
      ((p :: ps).map Pulse.clock)[j]? = some cj →
      (elapsed t.start (p :: ps))[i]? = some ei →
      (elapsed t.start (p :: ps))[j]? = some ej →
      |(ej - ei) - ((cj : ℚ) - ci) / 1000| ≤ ((ci : ℚ) + cj) / 1000 / 2 ^ 50) ∧
    (∀ f : Pulse → Int,
      elapsed t.start ((p :: ps).map (fun q => { q with frame := f q })) =
        elapsed t.start (p :: ps)) := by
  have hs : t.start._startTime < 0 := by simp [start, ht]
  have hform := elapsed_of_unset _ hs p ps
  have hp : List.Pairwise (· ≤ ·) ((p :: ps).map Pulse.clock) :=
    List.chain'_iff_pairwise.mp hmono
  have hge : ∀ c ∈ (p :: ps).map Pulse.clock, p.startRead ≤ c := by
    intro c hc
    rw [List.map_cons, List.mem_cons] at hc
    rcases hc with rfl | hc
    · exact hfirst
    · exact le_trans hfirst (List.rel_of_pairwise_cons hp hc)
  have herr : ∀ (k c : Nat) (e : ℚ), ((p :: ps).map Pulse.clock)[k]? = some c →
      (elapsed t.start (p :: ps))[k]? = some e →
      |e - ((c : ℚ) - p.startRead) / 1000| ≤ (c : ℚ) / 1000 / 2 ^ 50 := by
    intro k c e hc he
    rw [hform, List.getElem?_map, hc] at he
    simp only [Option.map_some', Option.some.injEq] at he
    rw [← he]
    exact sub_error _ _ (hge c (List.getElem?_mem hc))
  refine ⟨?_, ?_, ?_, herr, ?_, ?_⟩
  · rw [hform, List.map_map]; rfl
  · refine ⟨Double.sub (monotonicMs p.clock) (monotonicMs p.startRead), ?_, ?_, ?_⟩
    · rw [hform]; rfl
    · unfold Double.sub
      exact nearest_nonneg (by linarith [monotonicMs_mono hfirst])
    · intro h
      rw [h]
      simp [Double.sub, nearest_zero]
  · rw [hform, List.pairwise_map]
    refine hp.imp ?_
    intro a b hab
    unfold Double.sub
    exact nearest_mono (by linarith [monotonicMs_mono hab])
  · intro i j ci cj ei ej hci hcj hei hej
    have h1 := herr i ci ei hci hei
    have h2 := herr j cj ej hcj hej
    rw [abs_le] at h1 h2 ⊢
    constructor <;> [skip; skip] <;> ring_nf at h1 h2 ⊢ <;> linarith
  · intro f
    have : (p :: ps).map (fun q => ({ q with frame := f q } : Pulse)) =
        ({ p with frame := f p } : Pulse) :: ps.map (fun q => { q with frame := f q }) := rfl
    rw [this, hform, elapsed_of_unset _ hs]
    simp [List.map_map, Function.comp_def]

/-- C6 (amended) at a run of three pulses, the clock advancing by 250 microseconds
between the two readings of the first. -/
theorem elapsed_run_witness :
    List.Pairwise (· ≤ ·)
      (elapsed new.start [⟨0, 5000, 5250⟩, ⟨999990, 0, 1004000⟩, ⟨10, 0, 1024000⟩]) :=
  (elapsed_run new rfl ⟨0, 5000, 5250⟩ [⟨999990, 0, 1004000⟩, ⟨10, 0, 1024000⟩]
    (by decide) (by simp)).2.2.1

/-- C6 fails as stated.  When the clock advances from 5000 to 5250 microseconds between
the two readings of the first pulse, `getTime()` after that pulse is 1/4, not 0.  And
with one reading per pulse, 1 and then 1001 microseconds, `getTime()` after the second
pulse is the double below 1, not the gap of one millisecond. -/
theorem elapsed_first_pulse_not_zero :
    elapsed new.start [⟨0, 5000, 5250⟩] = [1 / 4] ∧
    elapsed new.start [⟨0, 1, 1⟩, ⟨1, 1001, 1001⟩] =
      [0, 9007199254740991 / 9007199254740992] := by
  have hs : new.start._startTime < 0 := by simp [start, new]
  have a1 : nearest (5250 : ℚ) = 5250 := by
    rw [nearest_eq 12 (5250 * 2 ^ 40) (by norm_num) (by norm_num) (by norm_num) (by norm_num)]
    norm_num
  have a2 : nearest (5000 : ℚ) = 5000 := by
    rw [nearest_eq 12 (5000 * 2 ^ 40) (by norm_num) (by norm_num) (by norm_num) (by norm_num)]
    norm_num
  have a3 : nearest (5250 / 1000 : ℚ) = 21 / 4 := by
    rw [nearest_eq 2 (21 * 2 ^ 48) (by norm_num) (by norm_num) (by norm_num) (by norm_num)]
    norm_num
  have a4 : nearest (5000 / 1000 : ℚ) = 5 := by
    rw [nearest_eq 2 (5 * 2 ^ 50) (by norm_num) (by norm_num) (by norm_num) (by norm_num)]
    norm_num
  have a5 : nearest (21 / 4 - 5 : ℚ) = 1 / 4 := by
    rw [nearest_eq (-2) (2 ^ 52) (by norm_num) (by norm_num) (by norm_num) (by norm_num)]
    norm_num
  have b1 : nearest (1 : ℚ) = 1 := by
    rw [nearest_eq 0 (2 ^ 52) (by norm_num) (by norm_num) (by norm_num) (by norm_num)]
    norm_num
  have b2 : nearest (1001 : ℚ) = 1001 := by
    rw [nearest_eq 9 (1001 * 2 ^ 43) (by norm_num) (by norm_num) (by norm_num) (by norm_num)]
    norm_num
  have b3 : nearest (1 / 1000 : ℚ) = 4611686018427388 / 2 ^ 62 := by
    rw [nearest_eq (-10) 4611686018427388 (by norm_num) (by norm_num) (by norm_num)
      (by norm_num [abs_lt])]
    norm_num
  have b4 : nearest (1001 / 1000 : ℚ) = 4508103226997866 / 2 ^ 52 := by
    rw [nearest_eq 0 4508103226997866 (by norm_num) (by norm_num) (by norm_num)
      (by norm_num [abs_lt])]
    norm_num
  have b5 : nearest (4508103226997866 / 2 ^ 52 - 4611686018427388 / 2 ^ 62 : ℚ) =
      9007199254740991 / 9007199254740992 := by
    rw [nearest_eq (-1) 9007199254740991 (by norm_num) (by norm_num) (by norm_num)
      (by norm_num [abs_lt])]
    norm_num
  constructor
  · rw [elapsed_of_unset _ hs]
    simp only [List.map_cons, List.map_nil, monotonicMs, Double.div, Double.ofInt, Double.sub,
      Nat.cast_ofNat]
    rw [a1, a2, a3, a4, a5]
  · rw [elapsed_of_unset _ hs]
    simp only [List.map_cons, List.map_nil, monotonicMs, Double.div, Double.ofInt, Double.sub,
      Nat.cast_ofNat, Nat.cast_one]
    rw [b1, b2, b3, b4, b5, sub_self, nearest_zero]

end ClutterFrameTicker
